import Mathlib

/-!
Verification of the SQL-to-diagram schema-inference engine
(`src/lib/sqlParser.ts`, class `SQLParser`).

The development shallowly embeds the parser: JavaScript strings become
`String` (operated on through their `List Char` data), the JS `Map`s
(which preserve insertion order) become association lists with
insertion-order-preserving update (`mapSet`), the JS `Set` becomes a
duplicate-free list (`setAdd`), and the class's mutable fields become a
`ParserState` threaded through the methods.  The regular-expression
searches of the source are embedded as explicit scanning functions with
the same leftmost-match and greediness behaviour on the fragments the
source uses.
-/

namespace SQLP

/-- ASCII lower-casing of one character, the model of JS `toLowerCase`. -/
def charLower (c : Char) : Char :=
  if 65 ≤ c.toNat ∧ c.toNat ≤ 90 then Char.ofNat (c.toNat + 32) else c

/-- ASCII upper-casing of one character, the model of JS `toUpperCase`. -/
def charUpper (c : Char) : Char :=
  if 97 ≤ c.toNat ∧ c.toNat ≤ 122 then Char.ofNat (c.toNat - 32) else c

/-- Model of JS `String.prototype.toLowerCase` (ASCII fragment). -/
def strLower (s : String) : String := ⟨s.data.map charLower⟩

/-- Model of JS `String.prototype.toUpperCase` (ASCII fragment). -/
def strUpper (s : String) : String := ⟨s.data.map charUpper⟩

/-- Whitespace in the sense of the JS `\s` class (ASCII fragment). -/
def isWS (c : Char) : Bool :=
  c = ' ' || c = '\t' || c = '\n' || c.toNat = 13 || c.toNat = 11 || c.toNat = 12

/-- A character of the JS `\w` class: letter, digit or underscore. -/
def isWordChar (c : Char) : Bool :=
  (65 ≤ c.toNat && c.toNat ≤ 90) || (97 ≤ c.toNat && c.toNat ≤ 122) ||
    (48 ≤ c.toNat && c.toNat ≤ 57) || c = '_'

/-- Remove leading and trailing whitespace from a character list. -/
def trimChars (l : List Char) : List Char :=
  ((l.dropWhile isWS).reverse.dropWhile isWS).reverse

/-- Model of JS `String.prototype.trim`. -/
def trimStr (s : String) : String := ⟨trimChars s.data⟩

/-- Model of JS `startsWith`. -/
def strStartsWith (s pre : String) : Bool := pre.data.isPrefixOf s.data

/-- Model of JS `endsWith`. -/
def strEndsWith (s post : String) : Bool := post.data.isSuffixOf s.data

/-- `listIsInfix pat l` decides whether `pat` occurs contiguously in `l`. -/
def listIsInfix (pat : List Char) : List Char → Bool
  | [] => pat.isEmpty
  | c :: rest => pat.isPrefixOf (c :: rest) || listIsInfix pat rest

/-- Model of JS `String.prototype.includes`. -/
def strIncludes (s pat : String) : Bool := listIsInfix pat.data s.data

/-- Model of JS `String.prototype.split` with a one-character separator:
`n` separators yield `n + 1` (possibly empty) pieces. -/
def splitOnChar (sep : Char) : List Char → List (List Char)
  | [] => [[]]
  | c :: rest =>
    if c = sep then [] :: splitOnChar sep rest
    else
      match splitOnChar sep rest with
      | g :: gs => (c :: g) :: gs
      | [] => [[c]]

/-- Interleave `sep` between the groups, the inverse of `splitOnChar`. -/
def joinWith (sep : Char) : List (List Char) → List Char
  | [] => []
  | [g] => g
  | g :: gs => g ++ sep :: joinWith sep gs

/-- Model of JS `split(/\s+/)` (fuelled; the wrapper supplies enough fuel). -/
def splitWSAux : Nat → List Char → List (List Char)
  | 0, _ => [[]]
  | _ + 1, [] => [[]]
  | fuel + 1, c :: rest =>
    if isWS c then [] :: splitWSAux fuel (rest.dropWhile isWS)
    else
      match splitWSAux fuel rest with
      | g :: gs => (c :: g) :: gs
      | [] => [[c]]

/-- Model of JS `split(/\s+/)`. -/
def splitWS (l : List Char) : List (List Char) := splitWSAux l.length l

/-- Model of JS `replace(/["`]/g, '')`: drop double quotes and backticks. -/
def stripQuotes (s : String) : String :=
  ⟨s.data.filter (fun c => c ≠ '\x22' && c ≠ '\x60')⟩

/-- Model of JS `slice(0, -n)` on a string. -/
def sliceDropRight (s : String) (n : Nat) : String :=
  ⟨s.data.take (s.data.length - n)⟩

/-! ### The data model (`src/types/Table.ts`) -/

/-- The target of a column's `foreignKey` field. -/
structure FKRef where
  table : String
  column : String
deriving DecidableEq, Repr

/-- `Column` of `src/types/Table.ts`. -/
structure Column where
  name : String
  type : String
  nullable : Bool
  primaryKey : Bool
  foreignKey : Option FKRef
deriving DecidableEq, Repr

/-- `Table` of `src/types/Table.ts`. -/
structure Table where
  name : String
  columns : List Column
deriving DecidableEq, Repr

/-- The four relationship cardinalities. -/
inductive RelType where
  | ONE_TO_ONE
  | ONE_TO_MANY
  | MANY_TO_ONE
  | MANY_TO_MANY
deriving DecidableEq, Repr

/-- One endpoint (`{table, column}`) of a relationship. -/
structure Endpoint where
  table : String
  column : String
deriving DecidableEq, Repr

/-- `Relationship` of `src/types/Table.ts` (`from`/`to` are keywords in
Lean, hence `from_`/`to_`). -/
structure Relationship where
  from_ : Endpoint
  to_ : Endpoint
  type : RelType
  junctionTable : Option String
deriving DecidableEq, Repr

/-- `DatabaseSchema` of `src/types/Table.ts`. -/
structure DatabaseSchema where
  tables : List Table
  relationships : List Relationship
deriving DecidableEq, Repr

/-- A per-table record of one `FOREIGN KEY` column pair, the element type
of the class's `foreignKeys` map. -/
structure FKRecord where
  column : String
  refTable : String
  refColumn : String
deriving DecidableEq, Repr

/-- The mutable fields of class `SQLParser`; the JS `Map`s are
insertion-ordered association lists. -/
structure ParserState where
  tables : List (String × Table)
  relationships : List Relationship
  primaryKeys : List (String × List String)
  foreignKeys : List (String × List FKRecord)
  uniqueConstraints : List (String × List String)
deriving DecidableEq, Repr

/-- JS `Map.prototype.set`: replace in place or append at the end. -/
def mapSet {α : Type} (m : List (String × α)) (k : String) (v : α) :
    List (String × α) :=
  match m with
  | [] => [(k, v)]
  | (k', v') :: rest => if k' = k then (k, v) :: rest else (k', v') :: mapSet rest k v

/-- JS `Map.prototype.get` (first entry with the key). -/
def mapGet {α : Type} (m : List (String × α)) (k : String) : Option α :=
  match m with
  | [] => none
  | (k', v) :: rest => if k' = k then some v else mapGet rest k

/-- JS `Set.prototype.add` on a duplicate-free list. -/
def setAdd (s : List String) (x : String) : List String :=
  if s.contains x then s else s ++ [x]

/-! ### Statement splitting (`splitStatements`) -/

/-- One line after the line-comment replace: cut at the first `--`. -/
def stripLineOne : List Char → List Char
  | [] => []
  | '-' :: '-' :: _ => []
  | c :: rest => c :: stripLineOne rest

/-- Model of the line-comment replace of line 41 (regex `--.*$`, flags
`gm`): every line is truncated at its first `--`. -/
def stripLineComments (s : String) : String :=
  ⟨joinWith '\n' ((splitOnChar '\n' s.data).map stripLineOne)⟩

/-- Scan forward to just past the first `*/`, if any. -/
def dropToStarSlash : List Char → Option (List Char)
  | [] => none
  | '*' :: '/' :: rest => some rest
  | _ :: rest => dropToStarSlash rest

/-- Fuelled body of `stripBlockComments`. -/
def stripBlockCommentsAux : Nat → List Char → List Char
  | 0, l => l
  | _ + 1, [] => []
  | fuel + 1, '/' :: '*' :: rest =>
    match dropToStarSlash rest with
    | some rest2 => stripBlockCommentsAux fuel rest2
    | none => '/' :: '*' :: stripBlockCommentsAux fuel rest
  | fuel + 1, c :: rest => c :: stripBlockCommentsAux fuel rest

/-- Model of the lazy block-comment replace of line 42: each slash-star
opener is erased up to the nearest following closer; an unterminated
opener is left in place. -/
def stripBlockComments (s : String) : String :=
  ⟨stripBlockCommentsAux s.data.length s.data⟩

/-- `splitStatements` (lines 39–45): strip line then block comments, split
at every `;`, and keep the (untrimmed) pieces whose trim is nonempty. -/
def splitStatements (sql : String) : List String :=
  let s1 := stripLineComments sql
  let s2 := stripBlockComments s1
  ((splitOnChar ';' s2.data).map (fun g => (⟨g⟩ : String))).filter
    (fun stmt => !(trimChars stmt.data).isEmpty)

/-! ### Regex search embeddings -/

/-- Consume a literal case-insensitively, returning the rest. -/
def matchCI : List Char → List Char → Option (List Char)
  | [], l => some l
  | _ :: _, [] => none
  | p :: ps, c :: cs => if charLower c = charLower p then matchCI ps cs else none

/-- `\s+`: at least one whitespace character, consumed greedily. -/
def ws1 : List Char → Option (List Char)
  | [] => none
  | c :: cs => if isWS c then some (cs.dropWhile isWS) else none

/-- `\w+`: a maximal nonempty word-character run, captured. -/
def word1 (l : List Char) : Option (List Char × List Char) :=
  let w := l.takeWhile isWordChar
  if w.isEmpty then none else some (w, l.drop w.length)

/-- `[^)]+`: a maximal nonempty run without `)`, captured. -/
def notParen1 (l : List Char) : Option (List Char × List Char) :=
  let w := l.takeWhile (fun c => c ≠ ')')
  if w.isEmpty then none else some (w, l.drop w.length)

/-- Expect one given character. -/
def lit1 (ch : Char) : List Char → Option (List Char)
  | [] => none
  | c :: cs => if c = ch then some cs else none

/-- Try a matcher at every start position, leftmost success first — the
semantics of JS `String.prototype.match` for the patterns used here. -/
def searchOpt {α : Type} (f : List Char → Option α) : List Char → Option α
  | [] => f []
  | c :: rest =>
    match f (c :: rest) with
    | some r => some r
    | none => searchOpt f rest

/-- The optional `IF\s+NOT\s+EXISTS\s+` group. -/
def tryIfNotExists (l0 : List Char) : Option (List Char) :=
  match matchCI "IF".data l0 with
  | none => none
  | some l1 =>
  match ws1 l1 with
  | none => none
  | some l2 =>
  match matchCI "NOT".data l2 with
  | none => none
  | some l3 =>
  match ws1 l3 with
  | none => none
  | some l4 =>
  match matchCI "EXISTS".data l4 with
  | none => none
  | some l5 => ws1 l5

/-- `/CREATE\s+TABLE\s+(?:IF\s+NOT\s+EXISTS\s+)?(\w+)/i` at one position,
with the regex's backtracking over the optional group. -/
def createNameAt (l0 : List Char) : Option String :=
  match matchCI "CREATE".data l0 with
  | none => none
  | some l1 =>
  match ws1 l1 with
  | none => none
  | some l2 =>
  match matchCI "TABLE".data l2 with
  | none => none
  | some l3 =>
  match ws1 l3 with
  | none => none
  | some l4 =>
  match tryIfNotExists l4 with
  | some l5 =>
    match word1 l5 with
    | some (w, _) => some ⟨w⟩
    | none => (word1 l4).map (fun p => (⟨p.1⟩ : String))
  | none => (word1 l4).map (fun p => (⟨p.1⟩ : String))

/-- The table-name match of `parseCreateTable` (line 56). -/
def searchCreateName (s : String) : Option String := searchOpt createNameAt s.data

/-- `/\(([\s\S]*)\)/` (line 60): greedy, so from the first `(` to the last
`)`; fails when no `(` precedes a `)`. -/
def parenContent (s : String) : Option String :=
  let l := s.data
  match l.findIdx? (fun c => c = '('), (l.reverse.findIdx? (fun c => c = ')')) with
  | some i, some jr =>
    let j := l.length - 1 - jr
    if i < j then some ⟨(l.drop (i + 1)).take (j - i - 1)⟩ else none
  | _, _ => none

/-- `/PRIMARY\s+KEY\s*\(([^)]+)\)/i` at one position. -/
def pkColsAt (l0 : List Char) : Option String :=
  match matchCI "PRIMARY".data l0 with
  | none => none
  | some l1 =>
  match ws1 l1 with
  | none => none
  | some l2 =>
  match matchCI "KEY".data l2 with
  | none => none
  | some l3 =>
  match lit1 '(' (l3.dropWhile isWS) with
  | none => none
  | some l4 =>
  match notParen1 l4 with
  | none => none
  | some (cap, l5) =>
  match lit1 ')' l5 with
  | none => none
  | some _ => some ⟨cap⟩

/-- The `PRIMARY KEY (...)` column-list match (line 75). -/
def searchPkCols (s : String) : Option String := searchOpt pkColsAt s.data

/-- `/FOREIGN\s+KEY\s*\(([^)]+)\)\s+REFERENCES\s+(\w+)\s*\(([^)]+)\)/i`
at one position; the three captures. -/
def fkAt (l0 : List Char) : Option (String × String × String) :=
  match matchCI "FOREIGN".data l0 with
  | none => none
  | some l1 =>
  match ws1 l1 with
  | none => none
  | some l2 =>
  match matchCI "KEY".data l2 with
  | none => none
  | some l3 =>
  match lit1 '(' (l3.dropWhile isWS) with
  | none => none
  | some l4 =>
  match notParen1 l4 with
  | none => none
  | some (cap1, l5) =>
  match lit1 ')' l5 with
  | none => none
  | some l6 =>
  match ws1 l6 with
  | none => none
  | some l7 =>
  match matchCI "REFERENCES".data l7 with
  | none => none
  | some l8 =>
  match ws1 l8 with
  | none => none
  | some l9 =>
  match word1 l9 with
  | none => none
  | some (cap2, l10) =>
  match lit1 '(' (l10.dropWhile isWS) with
  | none => none
  | some l11 =>
  match notParen1 l11 with
  | none => none
  | some (cap3, l12) =>
  match lit1 ')' l12 with
  | none => none
  | some _ => some (⟨cap1⟩, ⟨cap2⟩, ⟨cap3⟩)

/-- The foreign-key constraint match (line 178). -/
def searchFk (s : String) : Option (String × String × String) := searchOpt fkAt s.data

/-- `/UNIQUE\s*\(([^)]+)\)/i` at one position. -/
def uniqueAt (l0 : List Char) : Option String :=
  match matchCI "UNIQUE".data l0 with
  | none => none
  | some l1 =>
  match lit1 '(' (l1.dropWhile isWS) with
  | none => none
  | some l2 =>
  match notParen1 l2 with
  | none => none
  | some (cap, l3) =>
  match lit1 ')' l3 with
  | none => none
  | some _ => some ⟨cap⟩

/-- The `UNIQUE (...)` column-list match (line 198). -/
def searchUnique (s : String) : Option String := searchOpt uniqueAt s.data

/-! ### CREATE TABLE parsing -/

/-- The column-list cleanup applied throughout `parseCreateTable`:
`split(',')` then per entry trim, strip quotes/backticks, lower-case. -/
def cleanCols (cap : String) : List String :=
  (splitOnChar ',' cap.data).map
    (fun col => strLower (stripQuotes ⟨trimChars col⟩))

/-- `splitColumnDefinitions` scanner (lines 133–159): split the body at
top-level commas, tracking parenthesis depth; each comma pushes the
trimmed segment, the final segment only if its trim is nonempty. -/
def scdAux : List Char → List Char → Int → List String
  | [], current, _ =>
    let t := trimChars current.reverse
    if t.isEmpty then [] else [(⟨t⟩ : String)]
  | c :: rest, current, parenDepth =>
    if c = '(' then scdAux rest (c :: current) (parenDepth + 1)
    else if c = ')' then scdAux rest (c :: current) (parenDepth - 1)
    else if c = ',' ∧ parenDepth = 0 then
      (⟨trimChars current.reverse⟩ : String) :: scdAux rest [] parenDepth
    else scdAux rest (c :: current) parenDepth

/-- `splitColumnDefinitions` (lines 133–159). -/
def splitColumnDefinitions (content : String) : List String :=
  scdAux content.data [] 0

/-- `parseColumnDefinition` (lines 161–175): first whitespace token is the
(quote-stripped, lower-cased) name, second is the type; `nullable` and
`primaryKey` are substring tests on the upper-cased definition.  No
`foreignKey` is ever produced here. -/
def parseColumnDefinition (definition : String) : Option Column :=
  let parts := splitWS (trimChars definition.data)
  match parts with
  | p0 :: p1 :: _ =>
    let name := strLower (stripQuotes ⟨p0⟩)
    let upperDef := strUpper definition
    some
      { name := name
        type := ⟨p1⟩
        nullable := !(strIncludes upperDef "NOT NULL")
        primaryKey := strIncludes upperDef "PRIMARY KEY"
        foreignKey := none }
  | _ => none

/-- `parseForeignKeyConstraint` (lines 177–195): on a match, append one
record per source column, paired with the referenced column at the same
index and falling back (JS `||`) to the first referenced column. -/
def parseForeignKeyConstraint (definition : String)
    (foreignKeys : List FKRecord) : List FKRecord :=
  match searchFk definition with
  | none => foreignKeys
  | some (cap1, cap2, cap3) =>
    let sourceColumns := cleanCols cap1
    let targetTable := strLower (trimStr cap2)
    let targetColumns := cleanCols cap3
    foreignKeys ++ sourceColumns.enum.map (fun p =>
      let targetCol :=
        let t := targetColumns.getD p.1 ""
        if t = "" then targetColumns.getD 0 "" else t
      { column := p.2, refTable := targetTable, refColumn := targetCol })

/-- `parseUniqueConstraint` (lines 197–203). -/
def parseUniqueConstraint (definition : String)
    (uniqueConstraints : List String) : List String :=
  match searchUnique definition with
  | none => uniqueConstraints
  | some cap => uniqueConstraints ++ cleanCols cap

/-- `hasUniqueConstraint` (lines 205–207). -/
def hasUniqueConstraint (definition : String) : Bool :=
  strIncludes (strUpper definition) "UNIQUE"

/-- The per-table accumulator of `parseCreateTable`'s definition loop. -/
structure TableAcc where
  columns : List Column
  pks : List String
  fks : List FKRecord
  uniqs : List String
deriving Repr

/-- One iteration of `parseCreateTable`'s loop over the split definitions
(lines 71–105). -/
def processDefinition (acc : TableAcc) (definition : String) : TableAcc :=
  let trimmed := trimStr definition
  let upper := strUpper trimmed
  if strStartsWith upper "PRIMARY KEY" then
    match searchPkCols trimmed with
    | some cap => { acc with pks := acc.pks ++ cleanCols cap }
    | none => acc
  else if strStartsWith upper "FOREIGN KEY" then
    { acc with fks := parseForeignKeyConstraint trimmed acc.fks }
  else if strStartsWith upper "UNIQUE" then
    { acc with uniqs := parseUniqueConstraint trimmed acc.uniqs }
  else if trimmed.data.length > 0 ∧ !(strStartsWith upper "CONSTRAINT") then
    match parseColumnDefinition trimmed with
    | none => acc
    | some column =>
      let acc := { acc with columns := acc.columns ++ [column] }
      let acc :=
        if column.primaryKey then { acc with pks := acc.pks ++ [column.name] }
        else acc
      let acc :=
        match column.foreignKey with
        | some fkr =>
          { acc with fks := acc.fks ++
              [{ column := column.name, refTable := fkr.table, refColumn := fkr.column }] }
        | none => acc
      if hasUniqueConstraint trimmed then { acc with uniqs := acc.uniqs ++ [column.name] }
      else acc
  else acc

/-- The foreign-key marking of lines 120–128: set `foreignKey` on the first
column whose lower-cased name equals the record's column. -/
def setFK (cols : List Column) (fk : FKRecord) : List Column :=
  match cols with
  | [] => []
  | c :: rest =>
    if strLower c.name = strLower fk.column then
      { c with foreignKey := some { table := fk.refTable, column := fk.refColumn } } :: rest
    else c :: setFK rest fk

/-- `parseCreateTable` (lines 55–131).  Fails (leaving the state unchanged)
when the table-name pattern or the parenthesised body is missing. -/
def parseCreateTable (st : ParserState) (statement : String) : ParserState :=
  match searchCreateName statement with
  | none => st
  | some rawName =>
    let tableName := strLower rawName
    match parenContent statement with
    | none => st
    | some content =>
      let columnDefinitions := splitColumnDefinitions content
      let acc := columnDefinitions.foldl processDefinition ⟨[], [], [], []⟩
      let columns := acc.columns.map (fun column =>
        if acc.pks.contains (strLower column.name) then
          { column with primaryKey := true }
        else column)
      let columns := acc.fks.foldl setFK columns
      { st with
        tables := mapSet st.tables tableName { name := tableName, columns := columns }
        primaryKeys := mapSet st.primaryKeys tableName acc.pks
        foreignKeys := mapSet st.foreignKeys tableName acc.fks
        uniqueConstraints := mapSet st.uniqueConstraints tableName acc.uniqs }

/-- `processStatement` (lines 47–53). -/
def processStatement (st : ParserState) (statement : String) : ParserState :=
  if strStartsWith (strUpper statement) "CREATE TABLE" then
    parseCreateTable st statement
  else st

/-- Run a list of statements, trimming each, as `parseSQL`'s loop does. -/
def runStmts (st : ParserState) (stmts : List String) : ParserState :=
  stmts.foldl (fun s stmt => processStatement s (trimStr stmt)) st

/-- `parseSQL` (lines 31–37). -/
def parseSQL (st : ParserState) (sqlScript : String) : ParserState :=
  runStmts st (splitStatements sqlScript)

/-! ### Relationship analysis -/

/-- `isTimestampColumn` (lines 271–274). -/
def isTimestampColumn (columnName : String) : Bool :=
  ["created_at", "updated_at", "deleted_at", "timestamp",
    "date_created", "date_modified"].any
    (fun pattrn => strIncludes (strLower columnName) pattrn)

/-- One iteration of `identifyJunctionTables`' loop (lines 239–266). -/
def junctionStep (st : ParserState) (junctionTables : List String)
    (p : String × List FKRecord) : List String :=
  match mapGet st.tables p.1 with
  | none => junctionTables
  | some table =>
    if p.2.length = 2 then
      let primaryKeys := (mapGet st.primaryKeys p.1).getD []
      let fkColumns := p.2.map (fun fk => strLower fk.column)
      let isPrimaryKeyComposite := primaryKeys.length = 2 &&
        primaryKeys.all (fun pk => fkColumns.contains (strLower pk))
      let nonFkColumns := table.columns.filter (fun col =>
        !(fkColumns.contains (strLower col.name)) && !(isTimestampColumn col.name))
      if isPrimaryKeyComposite && nonFkColumns.length ≤ 2 then
        setAdd junctionTables p.1
      else junctionTables
    else junctionTables

/-- `identifyJunctionTables` (lines 236–269): a table with exactly two
foreign-key records, a two-column primary key contained in the FK columns,
and at most two remaining non-FK non-timestamp columns. -/
def identifyJunctionTables (st : ParserState) : List String :=
  st.foreignKeys.foldl (junctionStep st) []

/-- The condition under which `junctionStep` records its table: the
criterion applied to one `foreignKeys` entry. -/
def isJunctionEntry (st : ParserState) (p : String × List FKRecord) : Bool :=
  match mapGet st.tables p.1 with
  | none => false
  | some table =>
    if p.2.length = 2 then
      let primaryKeys := (mapGet st.primaryKeys p.1).getD []
      let fkColumns := p.2.map (fun fk => strLower fk.column)
      let isPrimaryKeyComposite := primaryKeys.length = 2 &&
        primaryKeys.all (fun pk => fkColumns.contains (strLower pk))
      let nonFkColumns := table.columns.filter (fun col =>
        !(fkColumns.contains (strLower col.name)) && !(isTimestampColumn col.name))
      isPrimaryKeyComposite && nonFkColumns.length ≤ 2
    else false

/-- `createManyToManyRelationship` (lines 276–289). -/
def createManyToManyRelationship (st : ParserState)
    (junctionTableName : String) : ParserState :=
  match mapGet st.foreignKeys junctionTableName with
  | some [fk1, fk2] =>
    { st with relationships := st.relationships ++
        [{ from_ := { table := fk1.refTable, column := fk1.refColumn }
           to_ := { table := fk2.refTable, column := fk2.refColumn }
           type := RelType.MANY_TO_MANY
           junctionTable := some junctionTableName }] }
  | _ => st

/-- `determineRelationshipType` (lines 291–315). -/
def determineRelationshipType (st : ParserState)
    (fromTable fromColumn toTable toColumn : String) : RelType :=
  let fromTableUniqueConstraints := (mapGet st.uniqueConstraints fromTable).getD []
  let isFromColumnUnique := fromTableUniqueConstraints.contains (strLower fromColumn)
  let toTablePrimaryKeys := (mapGet st.primaryKeys toTable).getD []
  let isToColumnPrimary := toTablePrimaryKeys.contains (strLower toColumn)
  if isFromColumnUnique && isToColumnPrimary then RelType.ONE_TO_ONE
  else if isToColumnPrimary then RelType.MANY_TO_ONE
  else RelType.MANY_TO_ONE

/-- An element of `findPossibleReferences`' result. -/
structure PossibleRef where
  tableName : String
  columnName : String
deriving DecidableEq, Repr

/-- One iteration of `findPossibleReferences`' loop over the candidate
table names (lines 360–395). -/
def fprStep (st : ParserState) (lowerColumnName currentTable : String)
    (references : List PossibleRef) (tableName : String) : List PossibleRef :=
  if tableName = currentTable then references
  else
    let lowerTableName := strLower tableName
    let references1 :=
      if strEndsWith lowerColumnName "_id" then
        let prefx := sliceDropRight lowerColumnName 3
        let variations := [prefx, prefx ++ "s", sliceDropRight prefx 1]
        if variations.contains lowerTableName then
          match mapGet st.tables tableName with
          | some targetTable =>
            if targetTable.columns.any (fun col => strLower col.name = "id") then
              references ++ [{ tableName := tableName, columnName := "id" }]
            else references
          | none => references
        else references
      else references
    if strIncludes lowerColumnName "_id" then
      let parts := (splitOnChar '_' lowerColumnName.data).map
        (fun g => (⟨g⟩ : String))
      if parts.getLastD "" = "id" then
        let prefx : String := ⟨joinWith '_' ((parts.dropLast).map (fun s => s.data))⟩
        if strIncludes lowerTableName prefx || strIncludes prefx lowerTableName then
          match mapGet st.tables tableName with
          | some targetTable =>
            if targetTable.columns.any (fun col => strLower col.name = "id") then
              references1 ++ [{ tableName := tableName, columnName := "id" }]
            else references1
          | none => references1
        else references1
      else references1
    else references1

/-- `findPossibleReferences` (lines 356–398): both naming patterns run for
each candidate table, each possibly pushing a reference to its `id`. -/
def findPossibleReferences (st : ParserState) (columnName : String)
    (tableNames : List String) (currentTable : String) : List PossibleRef :=
  let lowerColumnName := strLower columnName
  tableNames.foldl (fprStep st lowerColumnName currentTable) []

/-- Fuelled body of the precision-suffix strip in `areColumnsCompatible`. -/
def stripParenGroupsAux : Nat → List Char → List Char
  | 0, l => l
  | _ + 1, [] => []
  | fuel + 1, c :: rest =>
    if c = '(' then
      let inner := rest.takeWhile (fun x => x ≠ ')')
      match rest.drop inner.length with
      | ')' :: tail => stripParenGroupsAux fuel tail
      | _ => c :: stripParenGroupsAux fuel rest
    else c :: stripParenGroupsAux fuel rest

/-- The global parenthesised-group replace of lines 401–402. -/
def stripParenGroups (l : List Char) : List Char :=
  stripParenGroupsAux l.length l

/-- `areColumnsCompatible` (lines 400–414). -/
def areColumnsCompatible (col1 col2 : Column) : Bool :=
  let type1 : String := ⟨stripParenGroups (strLower col1.type).data⟩
  let type2 : String := ⟨stripParenGroups (strLower col2.type).data⟩
  let integerTypes := ["int", "integer", "bigint", "smallint", "serial",
    "bigserial", "tinyint", "mediumint"]
  let stringTypes := ["varchar", "char", "text", "string", "nvarchar", "nchar"]
  let uuidTypes := ["uuid", "uniqueidentifier"]
  (integerTypes.contains type1 && integerTypes.contains type2) ||
  (stringTypes.contains type1 && stringTypes.contains type2) ||
  (uuidTypes.contains type1 && uuidTypes.contains type2) ||
  type1 == type2

/-- The innermost convention-pass step, for one possible reference
(lines 327–351): guard against an existing tuple, require the referenced
table, its referenced column and type compatibility, then push. -/
def convRefStep (tableName : String) (column : Column)
    (s3 : ParserState) (ref : PossibleRef) : ParserState :=
  let relationshipExists := s3.relationships.any (fun rel =>
    rel.from_.table = tableName ∧ rel.from_.column = column.name ∧
      rel.to_.table = ref.tableName ∧ rel.to_.column = ref.columnName)
  if relationshipExists then s3
  else
    match mapGet s3.tables ref.tableName with
    | none => s3
    | some refTable =>
      match refTable.columns.find?
          (fun col => strLower col.name = strLower ref.columnName) with
      | none => s3
      | some refColumn =>
        if areColumnsCompatible column refColumn then
          let relationshipType := determineRelationshipType s3 tableName
            column.name ref.tableName ref.columnName
          { s3 with relationships := s3.relationships ++
              [{ from_ := { table := tableName, column := column.name }
                 to_ := { table := ref.tableName, column := ref.columnName }
                 type := relationshipType
                 junctionTable := none }] }
        else s3

/-- The convention-pass step for one column (lines 321–352): skip columns
that already carry a foreign key. -/
def convColumnStep (tableNames : List String) (tableName : String)
    (s2 : ParserState) (column : Column) : ParserState :=
  if column.foreignKey.isSome then s2
  else
    let possibleReferences := findPossibleReferences s2 column.name tableNames tableName
    possibleReferences.foldl (convRefStep tableName column) s2

/-- The convention-pass step for one stored table (lines 320–353). -/
def convTableStep (tableNames : List String) (s : ParserState)
    (p : String × Table) : ParserState :=
  p.2.columns.foldl (convColumnStep tableNames p.1) s

/-- `detectConventionBasedRelationships` (lines 317–354). -/
def detectConventionBasedRelationships (st : ParserState) : ParserState :=
  let tableNames := st.tables.map (fun p => p.1)
  st.tables.foldl (convTableStep tableNames) st

/-- The relationship the direct pass pushes for one foreign-key record
(lines 222–228). -/
def directRel (st : ParserState) (tableName : String) (fk : FKRecord) :
    Relationship :=
  { from_ := { table := tableName, column := fk.column }
    to_ := { table := fk.refTable, column := fk.refColumn }
    type := determineRelationshipType st tableName fk.column fk.refTable fk.refColumn
    junctionTable := none }

/-- The direct pass's push for one foreign-key record (lines 221–229). -/
def directInnerStep (tableName : String) (s2 : ParserState) (fk : FKRecord) :
    ParserState :=
  { s2 with relationships := s2.relationships ++ [directRel s2 tableName fk] }

/-- The direct pass's step for one `foreignKeys` entry (lines 218–230):
junction tables are skipped. -/
def directOuterStep (junctionTables : List String) (s : ParserState)
    (p : String × List FKRecord) : ParserState :=
  if junctionTables.contains p.1 then s
  else p.2.foldl (directInnerStep p.1) s

/-- The whole direct pass of `analyzeRelationships` (lines 217–230). -/
def directPass (junctionTables : List String) (st : ParserState) : ParserState :=
  st.foreignKeys.foldl (directOuterStep junctionTables) st

/-- `analyzeRelationships` (lines 209–234): junction pass, then direct
pass over non-junction foreign keys, then convention pass. -/
def analyzeRelationships (st : ParserState) : ParserState :=
  let junctionTables := identifyJunctionTables st
  let st1 := junctionTables.foldl createManyToManyRelationship st
  let st2 := directPass junctionTables st1
  detectConventionBasedRelationships st2

/-- The freshly reset state of `parseSQLScript`'s entry (lines 12–16). -/
def emptyState : ParserState := ⟨[], [], [], [], []⟩

/-- The parser state right after `parseSQL`, before relationship analysis. -/
def parseSQLState (sqlScript : String) : ParserState :=
  parseSQL emptyState sqlScript

/-- `parseSQLScript` (lines 11–29): parse, analyze, and return the schema
snapshot.  All embedded operations are total, which models the fact that
the top-level `try`/`catch` always returns the accumulated schema. -/
def parseSQLScript (sqlScript : String) : DatabaseSchema :=
  let st := analyzeRelationships (parseSQLState sqlScript)
  { tables := st.tables.map (fun p => p.2), relationships := st.relationships }

/-! ### Pure descriptions of the three relationship passes

These re-state the relationship lists produced by each pass of
`analyzeRelationships` as pure list computations; lemmas below prove that
the state-passing passes produce exactly these lists. -/

/-- The (zero- or one-element) relationship list
`createManyToManyRelationship` appends for one junction table. -/
def m2mList (fks : List (String × List FKRecord)) (junctionTableName : String) :
    List Relationship :=
  match mapGet fks junctionTableName with
  | some [fk1, fk2] =>
    [{ from_ := { table := fk1.refTable, column := fk1.refColumn }
       to_ := { table := fk2.refTable, column := fk2.refColumn }
       type := RelType.MANY_TO_MANY
       junctionTable := some junctionTableName }]
  | _ => []

/-- All relationships appended by the junction pass. -/
def junctionRelsList (fks : List (String × List FKRecord))
    (junctionTables : List String) : List Relationship :=
  junctionTables.flatMap (m2mList fks)

/-- The relationships one `foreignKeys` entry contributes to the direct
pass. -/
def entryRels (st : ParserState) (junctionTables : List String)
    (p : String × List FKRecord) : List Relationship :=
  if junctionTables.contains p.1 then []
  else p.2.map (directRel st p.1)

/-- All relationships appended by the direct foreign-key pass. -/
def directRelsList (st : ParserState) (junctionTables : List String) :
    List Relationship :=
  st.foreignKeys.flatMap (entryRels st junctionTables)

/-- Two relationships connect the same
(fromTable, fromColumn, toTable, toColumn) tuple. -/
def sameTuple (a b : Relationship) : Prop :=
  a.from_.table = b.from_.table ∧ a.from_.column = b.from_.column ∧
    a.to_.table = b.to_.table ∧ a.to_.column = b.to_.column

/-- `FreshOver old new`: scanning `new` left to right, each element's
tuple differs from every relationship already present (in `old` or
earlier in `new`) — the convention pass's duplicate guard. -/
def FreshOver : List Relationship → List Relationship → Prop
  | _, [] => True
  | old, r :: rest => (∀ prev ∈ old, ¬ sameTuple prev r) ∧ FreshOver (old ++ [r]) rest

/-- Equality of all parser-state fields except `relationships`. -/
def relOnlyExt (st st' : ParserState) : Prop :=
  st'.tables = st.tables ∧ st'.primaryKeys = st.primaryKeys ∧
    st'.foreignKeys = st.foreignKeys ∧ st'.uniqueConstraints = st.uniqueConstraints

/-- The provenance of a convention-pass relationship over a table map
`tbls`: its source endpoint is a stored table and one of its columns, its
target endpoint is a stored table's name and the literal column `id`. -/
def convShape (tbls : List (String × Table)) (r : Relationship) : Prop :=
  (∃ p ∈ tbls, r.from_.table = p.1 ∧ ∃ c ∈ p.2.columns, r.from_.column = c.name) ∧
    (∃ q ∈ tbls, r.to_.table = q.1) ∧ r.to_.column = "id"

/-- Everything the proofs track about one convention-pass relationship. -/
def convP (tbls : List (String × Table)) (r : Relationship) : Prop :=
  r.junctionTable = none ∧ r.type ≠ RelType.MANY_TO_MANY ∧ convShape tbls r

/-- `ConvExtend P st st'`: `st'` extends `st` by appending only
tuple-fresh relationships satisfying `P`, all other fields unchanged. -/
def ConvExtend (P : Relationship → Prop) (st st' : ParserState) : Prop :=
  relOnlyExt st st' ∧ ∃ new, st'.relationships = st.relationships ++ new ∧
    FreshOver st.relationships new ∧ ∀ r ∈ new, P r

/-! ### Definitions modelled from the claims

Each definition in this block follows the words of a claim (not the
source); the corresponding counterexample theorems compare them with the
source functions above. -/

/-- Modelled from the claim C1 ordering: the fixed cardinality priority
ONE_TO_ONE, ONE_TO_MANY, MANY_TO_ONE, MANY_TO_MANY. -/
def cardPriority : RelType → Nat
  | RelType.ONE_TO_ONE => 0
  | RelType.ONE_TO_MANY => 1
  | RelType.MANY_TO_ONE => 2
  | RelType.MANY_TO_MANY => 3

/-- The `"table.column"` key of an endpoint. -/
def epKey (e : Endpoint) : String := e.table ++ "." ++ e.column

/-- Strict lexicographic order on character lists by code point. -/
def lexLt : List Char → List Char → Bool
  | [], [] => false
  | [], _ :: _ => true
  | _ :: _, [] => false
  | a :: as, b :: bs =>
    if a.toNat < b.toNat then true
    else if b.toNat < a.toNat then false
    else lexLt as bs

/-- Lexicographic `≤` on strings. -/
def strLexLe (a b : String) : Bool := !(lexLt b.data a.data)

/-- Modelled from the claim C1: relationship `a` may precede `b` when its
cardinality priority is smaller, or equal with `a`'s source key
lexicographically no greater. -/
def claimRelOrderedB (a b : Relationship) : Bool :=
  Nat.blt (cardPriority a.type) (cardPriority b.type) ||
    (cardPriority a.type == cardPriority b.type &&
      strLexLe (epKey a.from_) (epKey b.from_))

/-- Boolean tuple equality of two relationships. -/
def sameTupleB (a b : Relationship) : Bool :=
  a.from_.table == b.from_.table && a.from_.column == b.from_.column &&
    a.to_.table == b.to_.table && a.to_.column == b.to_.column

/-- Adjacent pairs satisfy the claim C1 order. -/
def relSortedB : List Relationship → Bool
  | [] => true
  | [_] => true
  | a :: b :: rest => claimRelOrderedB a b && relSortedB (b :: rest)

/-- No two list members share a tuple. -/
def noDupTuplesB : List Relationship → Bool
  | [] => true
  | r :: rest => rest.all (fun x => !(sameTupleB r x)) && noDupTuplesB rest

/-- Modelled from the claim C1: the output relationship list holds at most
one relationship per tuple and is sorted by cardinality priority, then
lexicographically by the source endpoint's key. -/
def claimC1Shape (l : List Relationship) : Bool := noDupTuplesB l && relSortedB l

/-- Modelled from the spec (§4.1), for claim C2: quote-aware scanning that
splits only on `;` outside single/double/backtick quotes, producing the
trimmed nonempty statements. -/
def specSplitAux : List Char → Bool → Char → List Char → List String
  | [], _, _, current =>
    let t := trimChars current.reverse
    if t.isEmpty then [] else [(⟨t⟩ : String)]
  | c :: rest, inQuotes, quoteChar, current =>
    if !inQuotes && (c = '\x22' || c = '\x27' || c = '\x60') then
      specSplitAux rest true c (c :: current)
    else if inQuotes && c = quoteChar then
      specSplitAux rest false ' ' (c :: current)
    else if !inQuotes && c = ';' then
      (let t := trimChars current.reverse
       if t.isEmpty then [] else [(⟨t⟩ : String)]) ++ specSplitAux rest false quoteChar []
    else specSplitAux rest inQuotes quoteChar (c :: current)

/-- Modelled from the spec (§4.1), for claim C2: strip comments, then
split at quote-state-respecting `;` boundaries. -/
def specSplitStatements (sql : String) : List String :=
  specSplitAux (stripBlockComments (stripLineComments sql)).data false ' ' []

/-- Modelled from the claim C4: the audit-column allow-list — the three
exact names plus any name containing `timestamp` or `date_`. -/
def claimAudit (columnName : String) : Bool :=
  ["created_at", "updated_at", "deleted_at"].contains (strLower columnName) ||
    strIncludes (strLower columnName) "timestamp" ||
    strIncludes (strLower columnName) "date_"

/-- Modelled from the claim C4: a junction table has exactly two foreign
keys, a primary-key column set equal to the union of the foreign-key
columns, and at most two further columns after dropping foreign-key and
audit columns. -/
def claimJunction (st : ParserState) (tableName : String) : Bool :=
  match mapGet st.foreignKeys tableName, mapGet st.tables tableName with
  | some fks, some table =>
    let pks := (mapGet st.primaryKeys tableName).getD []
    let fkColumns := fks.map (fun fk => strLower fk.column)
    fks.length == 2 &&
      pks.all (fun pk => fkColumns.contains (strLower pk)) &&
      fkColumns.all (fun c => (pks.map strLower).contains c) &&
      (table.columns.filter (fun col =>
        !(fkColumns.contains (strLower col.name)) && !(claimAudit col.name))).length ≤ 2
  | _, _ => false

/-- Modelled from the claim C7: `s` with a trailing `s` removed. -/
def dropTrailingS (s : String) : String :=
  if strEndsWith s "s" then sliceDropRight s 1 else s

/-- Modelled from the claim C7: the six candidate table names generated
from a `_id` column's stem. -/
def claimCandidates (stem : String) : List String :=
  [stem, stem ++ "s", stem ++ "es", dropTrailingS stem, stem ++ "a", stem ++ "as"]

/-! ### Helper predicates for the amended claims -/

/-- Does the stored table `tableName` have a column whose lower-cased name
is `id` — the check shared by both convention patterns. -/
def hasIdColumn (st : ParserState) (tableName : String) : Bool :=
  match mapGet st.tables tableName with
  | some targetTable => targetTable.columns.any (fun col => strLower col.name = "id")
  | none => false

/-- The first convention pattern of `findPossibleReferences` (lines
366–380): the column ends in `_id` and the table name is the stem, the
stem plus `s`, or the stem less its final character. -/
def pattern1Matches (lowerColumnName lowerTableName : String) : Bool :=
  strEndsWith lowerColumnName "_id" &&
    (let prefx := sliceDropRight lowerColumnName 3
     [prefx, prefx ++ "s", sliceDropRight prefx 1].contains lowerTableName)

/-- The second convention pattern of `findPossibleReferences` (lines
382–394): the column contains `_id`, its final `_`-segment is `id`, and
the table name contains the stem or conversely. -/
def pattern2Matches (lowerColumnName lowerTableName : String) : Bool :=
  strIncludes lowerColumnName "_id" &&
    (let parts := (splitOnChar '_' lowerColumnName.data).map (fun g => (⟨g⟩ : String))
     parts.getLastD "" == "id" &&
      (let prefx : String := ⟨joinWith '_' ((parts.dropLast).map (fun s => s.data))⟩
       strIncludes lowerTableName prefx || strIncludes prefx lowerTableName))

/-- The per-source-column pairing of a table-level foreign key: source
column `i` pairs with referenced column `i`, falling back (like JS `||`)
to the first referenced column when index `i` is absent or empty. -/
def mkFKPairs (sourceColumns : List String) (targetTable : String)
    (targetColumns : List String) : List FKRecord :=
  sourceColumns.enum.map (fun p =>
    let targetCol :=
      let t := targetColumns.getD p.1 ""
      if t = "" then targetColumns.getD 0 "" else t
    { column := p.2, refTable := targetTable, refColumn := targetCol })

/-- The references one candidate table contributes in
`findPossibleReferences`: one per matching pattern. -/
def fprFor (st : ParserState) (lowerColumnName currentTable tableName : String) :
    List PossibleRef :=
  if tableName = currentTable then []
  else
    (if pattern1Matches lowerColumnName (strLower tableName) ∧ hasIdColumn st tableName
     then [{ tableName := tableName, columnName := "id" }] else []) ++
    (if pattern2Matches lowerColumnName (strLower tableName) ∧ hasIdColumn st tableName
     then [{ tableName := tableName, columnName := "id" }] else [])

/-- `s` holds no upper-case ASCII letter — the sense in which every name
in the output schema is fully lower-case. -/
def noUpperStr (s : String) : Prop :=
  ∀ c ∈ s.data, ¬(65 ≤ c.toNat ∧ c.toNat ≤ 90)

/-- Both endpoints of a relationship are fully lower-case. -/
def lowerRel (r : Relationship) : Prop :=
  noUpperStr r.from_.table ∧ noUpperStr r.from_.column ∧
    noUpperStr r.to_.table ∧ noUpperStr r.to_.column

/-- The lower-case invariant the parser maintains: stored table keys,
table names, column names, foreign-key record fields and relationship
endpoints hold no upper-case ASCII letters. -/
def LowerInv (st : ParserState) : Prop :=
  (∀ p ∈ st.tables, noUpperStr p.1 ∧ noUpperStr p.2.name ∧
      ∀ c ∈ p.2.columns, noUpperStr c.name) ∧
    (∀ p ∈ st.foreignKeys, noUpperStr p.1 ∧
      ∀ fk ∈ p.2, noUpperStr fk.column ∧ noUpperStr fk.refTable ∧
        noUpperStr fk.refColumn) ∧
    (∀ r ∈ st.relationships, lowerRel r)

/-! ## Basic lemmas -/

theorem toNat_ofNat_small {n : Nat} (h : n < 1000) : (Char.ofNat n).toNat = n := by
  unfold Char.ofNat
  split
  · rfl
  · rename_i hv
    exact absurd (Or.inl (by omega)) hv

theorem charLower_not_upper (c : Char) :
    ¬(65 ≤ (charLower c).toNat ∧ (charLower c).toNat ≤ 90) := by
  unfold charLower
  split
  · rename_i h
    have hh : (Char.ofNat (c.toNat + 32)).toNat = c.toNat + 32 :=
      toNat_ofNat_small (by omega)
    omega
  · omega

theorem noUpper_strLower (s : String) : noUpperStr (strLower s) := by
  intro c hc
  obtain ⟨c', _, rfl⟩ := List.mem_map.mp hc
  exact charLower_not_upper c'

theorem mapGet_mem {α : Type} {m : List (String × α)} {k : String} {v : α}
    (h : mapGet m k = some v) : (k, v) ∈ m := by
  induction m with
  | nil => simp [mapGet] at h
  | cons hd tl ih =>
    obtain ⟨k', v'⟩ := hd
    simp only [mapGet] at h
    split at h
    · rename_i heq
      cases h
      simp [heq]
    · exact List.mem_cons_of_mem _ (ih h)

theorem mem_mapSet {α : Type} {m : List (String × α)} {k : String} {v : α}
    {p : String × α} (h : p ∈ mapSet m k v) : p ∈ m ∨ p = (k, v) := by
  induction m with
  | nil => simp [mapSet] at h; simp [h]
  | cons hd tl ih =>
    obtain ⟨k', v'⟩ := hd
    simp only [mapSet] at h
    split at h
    · rcases List.mem_cons.mp h with h1 | h1
      · exact Or.inr h1
      · exact Or.inl (List.mem_cons_of_mem _ h1)
    · rcases List.mem_cons.mp h with h1 | h1
      · exact Or.inl (by simp [h1])
      · rcases ih h1 with h2 | h2
        · exact Or.inl (List.mem_cons_of_mem _ h2)
        · exact Or.inr h2

theorem keys_mapSet {α : Type} (m : List (String × α)) (k : String) (v : α) :
    (mapSet m k v).map Prod.fst = if k ∈ m.map Prod.fst
      then m.map Prod.fst else m.map Prod.fst ++ [k] := by
  induction m with
  | nil => simp [mapSet]
  | cons hd tl ih =>
    obtain ⟨k', v'⟩ := hd
    simp only [mapSet]
    split
    · rename_i heq
      simp [heq]
    · rename_i hne
      have h2 : ¬(k = k') := fun hx => hne hx.symm
      simp only [List.map_cons, List.mem_cons, h2, false_or, ih]
      split <;> simp

theorem keys_nodup_mapSet {α : Type} {m : List (String × α)} (k : String) (v : α)
    (h : (m.map Prod.fst).Nodup) : ((mapSet m k v).map Prod.fst).Nodup := by
  rw [keys_mapSet]
  split
  · exact h
  · rename_i hc
    refine List.Nodup.append h (List.nodup_singleton k) ?_
    intro a ha hb
    rcases List.mem_singleton.mp hb with rfl
    exact hc ha

theorem mapGet_of_mem_nodup {α : Type} {m : List (String × α)} {k : String}
    {v : α} (hnd : (m.map Prod.fst).Nodup) (hm : (k, v) ∈ m) :
    mapGet m k = some v := by
  induction m with
  | nil => simp at hm
  | cons hd tl ih =>
    obtain ⟨k', v'⟩ := hd
    simp only [List.map_cons, List.nodup_cons] at hnd
    rcases List.mem_cons.mp hm with h1 | h1
    · cases h1
      simp [mapGet]
    · have hk : k' ≠ k := by
        intro rfl_eq
        exact hnd.1 (by simpa [rfl_eq] using List.mem_map_of_mem Prod.fst h1)
      simp [mapGet, hk, ih hnd.2 h1]

theorem foldl_append_eq {α β : Type} (g : α → List β) :
    ∀ (l : List α) (init : List β),
      l.foldl (fun acc x => acc ++ g x) init = init ++ l.flatMap g
  | [], init => by simp
  | x :: l, init => by
    simp only [List.foldl_cons, List.flatMap_cons, foldl_append_eq g l,
      List.append_assoc]

/-! ## Decomposition of the three relationship passes -/

theorem relOnlyExt_refl (st : ParserState) : relOnlyExt st st := ⟨rfl, rfl, rfl, rfl⟩

theorem relOnlyExt_trans {a b c : ParserState} (h1 : relOnlyExt a b)
    (h2 : relOnlyExt b c) : relOnlyExt a c :=
  ⟨h2.1.trans h1.1, h2.2.1.trans h1.2.1, h2.2.2.1.trans h1.2.2.1,
    h2.2.2.2.trans h1.2.2.2⟩

theorem relOnlyExt_set (st : ParserState) (x : List Relationship) :
    relOnlyExt st { st with relationships := x } := ⟨rfl, rfl, rfl, rfl⟩

theorem determineRelationshipType_congr {st st' : ParserState}
    (h : relOnlyExt st st') (a b c d : String) :
    determineRelationshipType st' a b c d = determineRelationshipType st a b c d := by
  unfold determineRelationshipType
  rw [h.2.1, h.2.2.2]

theorem determineRelationshipType_cases (st : ParserState) (a b c d : String) :
    determineRelationshipType st a b c d = RelType.ONE_TO_ONE ∨
      determineRelationshipType st a b c d = RelType.MANY_TO_ONE := by
  unfold determineRelationshipType
  dsimp only
  split
  · exact Or.inl rfl
  · split
    · exact Or.inr rfl
    · exact Or.inr rfl

theorem determineRelationshipType_ne_M2M (st : ParserState) (a b c d : String) :
    determineRelationshipType st a b c d ≠ RelType.MANY_TO_MANY := by
  rcases determineRelationshipType_cases st a b c d with h | h <;> simp [h]

theorem createM2M_eq (st : ParserState) (j : String) :
    createManyToManyRelationship st j =
      { st with relationships := st.relationships ++ m2mList st.foreignKeys j } := by
  unfold createManyToManyRelationship m2mList
  split <;> simp

theorem junctionPass_eq : ∀ (js : List String) (st : ParserState),
    js.foldl createManyToManyRelationship st =
      { st with relationships := st.relationships ++ junctionRelsList st.foreignKeys js }
  | [], st => by simp [junctionRelsList]
  | j :: js, st => by
    simp only [List.foldl_cons]
    rw [junctionPass_eq js, createM2M_eq]
    simp [junctionRelsList, List.flatMap_cons]

theorem directRel_congr {s s' : ParserState} (h : relOnlyExt s s')
    (tn : String) (fk : FKRecord) : directRel s' tn fk = directRel s tn fk := by
  unfold directRel
  rw [determineRelationshipType_congr h]

theorem directInner_eq : ∀ (fks : List FKRecord) (tn : String) (s : ParserState),
    fks.foldl (directInnerStep tn) s =
      { s with relationships := s.relationships ++ fks.map (directRel s tn) }
  | [], tn, s => by simp
  | fk :: fks, tn, s => by
    simp only [List.foldl_cons]
    rw [directInner_eq fks]
    have h : relOnlyExt s (directInnerStep tn s fk) := relOnlyExt_set s _
    have hfn : directRel (directInnerStep tn s fk) tn = directRel s tn :=
      funext (directRel_congr h tn)
    rw [hfn]
    simp [directInnerStep, List.append_assoc]

theorem entryRels_congr {s s' : ParserState} (h : relOnlyExt s s')
    (js : List String) (p : String × List FKRecord) :
    entryRels s' js p = entryRels s js p := by
  unfold entryRels
  split
  · rfl
  · simp [directRel_congr h]

theorem rel_directOuterStep (js : List String) (s : ParserState)
    (p : String × List FKRecord) :
    directOuterStep js s p = { s with relationships := s.relationships ++ entryRels s js p } := by
  unfold directOuterStep entryRels
  split
  · simp
  · rw [directInner_eq]

theorem directOuter_fold : ∀ (entries : List (String × List FKRecord))
    (js : List String) (s : ParserState),
    entries.foldl (directOuterStep js) s =
      { s with relationships := s.relationships ++ entries.flatMap (entryRels s js) }
  | [], js, s => by simp
  | p :: entries, js, s => by
    simp only [List.foldl_cons]
    rw [directOuter_fold entries, rel_directOuterStep]
    have h : relOnlyExt s { s with
        relationships := s.relationships ++ entryRels s js p } := relOnlyExt_set s _
    have hfn : entryRels { s with
        relationships := s.relationships ++ entryRels s js p } js = entryRels s js :=
      funext (entryRels_congr h js)
    simp [hfn, List.flatMap_cons, List.append_assoc]

theorem directPass_eq (js : List String) (st : ParserState) :
    directPass js st = { st with relationships := st.relationships ++ directRelsList st js } := by
  unfold directPass directRelsList
  exact directOuter_fold st.foreignKeys js st

/-! ## The convention pass appends only fresh relationships -/

theorem freshOver_append : ∀ {n1 : List Relationship} {old n2 : List Relationship},
    FreshOver old n1 → FreshOver (old ++ n1) n2 → FreshOver old (n1 ++ n2)
  | [], old, n2, _, h2 => by
    simpa using h2
  | r :: rest, old, n2, h1, h2 => by
    refine ⟨h1.1, ?_⟩
    apply freshOver_append h1.2
    rwa [List.append_cons] at h2

theorem convExtend_refl (P : Relationship → Prop) (st : ParserState) :
    ConvExtend P st st :=
  ⟨relOnlyExt_refl st, [], by simp, trivial, by simp⟩

theorem convExtend_trans {P : Relationship → Prop} {st1 st2 st3 : ParserState}
    (h1 : ConvExtend P st1 st2) (h2 : ConvExtend P st2 st3) :
    ConvExtend P st1 st3 := by
  obtain ⟨e1, n1, hr1, hf1, hp1⟩ := h1
  obtain ⟨e2, n2, hr2, hf2, hp2⟩ := h2
  refine ⟨relOnlyExt_trans e1 e2, n1 ++ n2, ?_, ?_, ?_⟩
  · rw [hr2, hr1, List.append_assoc]
  · exact freshOver_append hf1 (by rwa [hr1] at hf2)
  · intro r hr
    rcases List.mem_append.mp hr with h | h
    · exact hp1 r h
    · exact hp2 r h

theorem convExtend_foldl {α : Type} (P : Relationship → Prop)
    (t0 : List (String × Table)) (f : ParserState → α → ParserState) :
    ∀ (l : List α) (s : ParserState),
      (∀ s' x, x ∈ l → s'.tables = t0 → ConvExtend P s' (f s' x)) →
      s.tables = t0 → ConvExtend P s (l.foldl f s)
  | [], s, _, _ => convExtend_refl P s
  | x :: l, s, hstep, hst => by
    simp only [List.foldl_cons]
    have h1 := hstep s x (List.mem_cons_self x l) hst
    have ht : (f s x).tables = t0 := h1.1.1.trans hst
    exact convExtend_trans h1
      (convExtend_foldl P t0 f l (f s x)
        (fun s' y hy => hstep s' y (List.mem_cons_of_mem _ hy)) ht)

/-! ## Characterizing `findPossibleReferences` -/

theorem append_ite {α : Type} (c : Prop) [inst : Decidable c] (refs M : List α) :
    (if c then refs ++ M else refs) = refs ++ (if c then M else []) := by
  split <;> simp

theorem append_match_option {α β : Type} (o : Option β) (refs : List α)
    (f : β → List α) :
    (match o with | some t => refs ++ f t | none => refs) =
      refs ++ (match o with | some t => f t | none => []) := by
  cases o <;> simp

theorem fprStep_eq (st : ParserState) (lc cur : String)
    (refs : List PossibleRef) (tn : String) :
    fprStep st lc cur refs tn = refs ++ fprFor st lc cur tn := by
  have hpiece : ∀ (base : List PossibleRef) (pat : Bool),
      (if pat ∧ hasIdColumn st tn then base ++ [({ tableName := tn, columnName := "id" } : PossibleRef)] else base) =
        base ++ (if pat ∧ hasIdColumn st tn then [({ tableName := tn, columnName := "id" } : PossibleRef)] else []) :=
    fun base pat => append_ite _ base _
  unfold fprStep fprFor
  by_cases h1 : tn = cur
  · simp [h1]
  simp only [if_neg h1]
  by_cases hE : strEndsWith lc "_id" = true <;>
    by_cases hI : strIncludes lc "_id" = true <;>
      simp only [hE, hI, if_true, if_false, Bool.false_eq_true] <;>
        cases hC : mapGet st.tables tn <;>
          simp [pattern1Matches, pattern2Matches, hasIdColumn, hE, hI, hC,
            append_ite, append_match_option] <;>
            split_ifs <;> simp_all

theorem fpr_eq_flatMap (st : ParserState) (c : String) (tns : List String)
    (cur : String) :
    findPossibleReferences st c tns cur =
      tns.flatMap (fprFor st (strLower c) cur) := by
  unfold findPossibleReferences
  have h : fprStep st (strLower c) cur = fun refs tn => refs ++ fprFor st (strLower c) cur tn :=
    funext fun refs => funext fun tn => fprStep_eq st (strLower c) cur refs tn
  show List.foldl (fprStep st (strLower c) cur) [] tns =
    tns.flatMap (fprFor st (strLower c) cur)
  rw [h]
  simpa using foldl_append_eq (fprFor st (strLower c) cur) tns []

theorem mem_ite_singleton {c : Prop} [inst : Decidable c] {x r : PossibleRef} :
    r ∈ (if c then [x] else ([] : List PossibleRef)) ↔ c ∧ r = x := by
  split <;> simp_all

theorem mem_fprFor {st : ParserState} {lc cur tn : String} {r : PossibleRef} :
    r ∈ fprFor st lc cur tn ↔
      tn ≠ cur ∧ r = { tableName := tn, columnName := "id" } ∧
        hasIdColumn st tn = true ∧
        (pattern1Matches lc (strLower tn) = true ∨
          pattern2Matches lc (strLower tn) = true) := by
  unfold fprFor
  by_cases h1 : tn = cur
  · simp [h1]
  simp only [if_neg h1, List.mem_append, mem_ite_singleton]
  constructor
  · rintro (⟨⟨hp, hid⟩, rfl⟩ | ⟨⟨hp, hid⟩, rfl⟩)
    · exact ⟨h1, rfl, hid, Or.inl hp⟩
    · exact ⟨h1, rfl, hid, Or.inr hp⟩
  · rintro ⟨_, rfl, hid, hp | hp⟩
    · exact Or.inl ⟨⟨hp, hid⟩, rfl⟩
    · exact Or.inr ⟨⟨hp, hid⟩, rfl⟩

theorem mem_findPossibleReferences {st : ParserState} {c : String}
    {tns : List String} {cur : String} {r : PossibleRef} :
    r ∈ findPossibleReferences st c tns cur ↔
      ∃ tn ∈ tns, tn ≠ cur ∧ r = { tableName := tn, columnName := "id" } ∧
        hasIdColumn st tn = true ∧
        (pattern1Matches (strLower c) (strLower tn) = true ∨
          pattern2Matches (strLower c) (strLower tn) = true) := by
  rw [fpr_eq_flatMap]
  simp only [List.mem_flatMap, mem_fprFor]

theorem fpr_columnName {st : ParserState} {c : String} {tns : List String}
    {cur : String} {r : PossibleRef} (h : r ∈ findPossibleReferences st c tns cur) :
    r.columnName = "id" := by
  obtain ⟨tn, _, _, hr, _⟩ := mem_findPossibleReferences.mp h
  rw [hr]

/-! ## The convention pass satisfies `ConvExtend` -/

theorem convRefStep_extend (t0 : List (String × Table)) (tn : String)
    (column : Column) (hp : ∃ p ∈ t0, tn = p.1 ∧ column ∈ p.2.columns)
    {s3 : ParserState} {ref : PossibleRef} (hid : ref.columnName = "id")
    (hst : s3.tables = t0) :
    ConvExtend (convP t0) s3 (convRefStep tn column s3 ref) := by
  unfold convRefStep
  dsimp only
  split
  · exact convExtend_refl _ _
  · rename_i hex
    split
    · exact convExtend_refl _ _
    · rename_i refTable hG
      split
      · exact convExtend_refl _ _
      · rename_i refColumn hF
        split
        · refine ⟨relOnlyExt_set s3 _, [_], rfl, ⟨?_, trivial⟩, ?_⟩
          · intro prev hprev hsame
            apply hex
            simp only [List.any_eq_true, decide_eq_true_eq]
            exact ⟨prev, hprev, hsame.1, hsame.2.1, hsame.2.2.1, hsame.2.2.2⟩
          · intro r hr
            rcases List.mem_singleton.mp hr with rfl
            refine ⟨rfl, determineRelationshipType_ne_M2M s3 tn column.name
              ref.tableName ref.columnName, ?_, ?_, ?_⟩
            · obtain ⟨p, hpmem, hptn, hcol⟩ := hp
              exact ⟨p, hpmem, hptn, column, hcol, rfl⟩
            · refine ⟨(ref.tableName, refTable), ?_, rfl⟩
              rw [← hst]
              exact mapGet_mem hG
            · exact hid
        · exact convExtend_refl _ _

theorem convColumnStep_extend (t0 : List (String × Table))
    (tableNames : List String) (tn : String) (column : Column)
    (hp : ∃ p ∈ t0, tn = p.1 ∧ column ∈ p.2.columns) :
    ∀ s2, s2.tables = t0 → ConvExtend (convP t0) s2 (convColumnStep tableNames tn s2 column) := by
  intro s2 hst
  unfold convColumnStep
  split
  · exact convExtend_refl _ _
  · exact convExtend_foldl (convP t0) t0 (convRefStep tn column) _ s2
      (fun s' ref href hst' =>
        convRefStep_extend t0 tn column hp (fpr_columnName href) hst') hst

theorem convTableStep_extend (t0 : List (String × Table))
    (tableNames : List String) (p : String × Table) (hp : p ∈ t0) :
    ∀ s, s.tables = t0 → ConvExtend (convP t0) s (convTableStep tableNames s p) := by
  intro s hst
  unfold convTableStep
  exact convExtend_foldl (convP t0) t0 (convColumnStep tableNames p.1) p.2.columns s
    (fun s' col hcol hst' =>
      convColumnStep_extend t0 tableNames p.1 col ⟨p, hp, rfl, hcol⟩ s' hst') hst

theorem detectConvention_extends (st : ParserState) :
    ConvExtend (convP st.tables) st (detectConventionBasedRelationships st) := by
  unfold detectConventionBasedRelationships
  exact convExtend_foldl (convP st.tables) st.tables
    (convTableStep (st.tables.map (fun p => p.1))) st.tables st
    (fun s' p hp hst' =>
      convTableStep_extend st.tables (st.tables.map (fun p => p.1)) p hp s' hst') rfl

/-! ## Full decomposition of `analyzeRelationships` -/

theorem directRelsList_congr {st st' : ParserState} (h : relOnlyExt st st')
    (js : List String) : directRelsList st' js = directRelsList st js := by
  unfold directRelsList
  rw [h.2.2.1]
  have hfn : entryRels st' js = entryRels st js := funext (entryRels_congr h js)
  rw [hfn]

theorem analyze_decomp (st : ParserState) :
    ∃ convNew : List Relationship,
      relOnlyExt st (analyzeRelationships st) ∧
      (analyzeRelationships st).relationships =
        st.relationships ++
          junctionRelsList st.foreignKeys (identifyJunctionTables st) ++
          directRelsList st (identifyJunctionTables st) ++ convNew ∧
      FreshOver (st.relationships ++
          junctionRelsList st.foreignKeys (identifyJunctionTables st) ++
          directRelsList st (identifyJunctionTables st)) convNew ∧
      (∀ r ∈ convNew, r.junctionTable = none ∧ r.type ≠ RelType.MANY_TO_MANY ∧
        convShape st.tables r) := by
  unfold analyzeRelationships
  dsimp only
  rw [junctionPass_eq]
  have h1 : relOnlyExt st { st with relationships := (st.relationships ++
      junctionRelsList st.foreignKeys (identifyJunctionTables st)) } := relOnlyExt_set st _
  rw [directPass_eq, directRelsList_congr h1]
  set st2 : ParserState := { st with relationships := (st.relationships ++
      junctionRelsList st.foreignKeys (identifyJunctionTables st) ++
      directRelsList st (identifyJunctionTables st)) } with hst2
  have h2 : relOnlyExt st st2 := relOnlyExt_set st _
  obtain ⟨e3, convNew, hrel, hfresh, hP⟩ := detectConvention_extends st2
  have htab : st2.tables = st.tables := rfl
  refine ⟨convNew, relOnlyExt_trans h2 e3, ?_, ?_, ?_⟩
  · rw [hrel]
  · exact hfresh
  · intro r hr
    have := hP r hr
    rwa [htab] at this

/-! ## State invariants established by `parseSQL` -/

theorem relationships_parseCreateTable (st : ParserState) (stmt : String) :
    (parseCreateTable st stmt).relationships = st.relationships := by
  unfold parseCreateTable
  split
  · rfl
  · dsimp only
    split
    · rfl
    · rfl

theorem relationships_processStatement (st : ParserState) (stmt : String) :
    (processStatement st stmt).relationships = st.relationships := by
  unfold processStatement
  split
  · exact relationships_parseCreateTable st stmt
  · rfl

theorem relationships_runStmts : ∀ (stmts : List String) (st : ParserState),
    (runStmts st stmts).relationships = st.relationships
  | [], st => rfl
  | stmt :: stmts, st => by
    unfold runStmts
    simp only [List.foldl_cons]
    have h := relationships_runStmts stmts (processStatement st (trimStr stmt))
    unfold runStmts at h
    rw [h, relationships_processStatement]

theorem relationships_parseSQLState (script : String) :
    (parseSQLState script).relationships = [] := by
  unfold parseSQLState parseSQL
  rw [relationships_runStmts]
  rfl

theorem foreignKeys_parseCreateTable (st : ParserState) (stmt : String) :
    (parseCreateTable st stmt).foreignKeys = st.foreignKeys ∨
      ∃ k v, (parseCreateTable st stmt).foreignKeys = mapSet st.foreignKeys k v := by
  unfold parseCreateTable
  split
  · exact Or.inl rfl
  · dsimp only
    split
    · exact Or.inl rfl
    · exact Or.inr ⟨_, _, rfl⟩

theorem fkKeys_nodup_runStmts : ∀ (stmts : List String) (st : ParserState),
    (st.foreignKeys.map Prod.fst).Nodup →
      ((runStmts st stmts).foreignKeys.map Prod.fst).Nodup
  | [], _, h => h
  | stmt :: stmts, st, h => by
    unfold runStmts
    simp only [List.foldl_cons]
    have hstep : ((processStatement st (trimStr stmt)).foreignKeys.map Prod.fst).Nodup := by
      unfold processStatement
      split
      · rcases foreignKeys_parseCreateTable st (trimStr stmt) with he | ⟨k, v, he⟩
        · rwa [he]
        · rw [he]; exact keys_nodup_mapSet k v h
      · exact h
    exact fkKeys_nodup_runStmts stmts (processStatement st (trimStr stmt)) hstep

theorem fkKeys_nodup_parseSQLState (script : String) :
    ((parseSQLState script).foreignKeys.map Prod.fst).Nodup := by
  unfold parseSQLState parseSQL
  exact fkKeys_nodup_runStmts _ emptyState (by simp [emptyState])

/-! ## Characterizing the junction set -/

theorem junctionStep_eq (st : ParserState) (acc : List String)
    (p : String × List FKRecord) :
    junctionStep st acc p = if isJunctionEntry st p = true then setAdd acc p.1 else acc := by
  unfold junctionStep isJunctionEntry
  cases hC : mapGet st.tables p.1 <;> dsimp only
  · simp
  · split
    · split <;> simp_all
    · simp_all

theorem mem_setAdd {s : List String} {x y : String} :
    x ∈ setAdd s y ↔ x ∈ s ∨ x = y := by
  unfold setAdd
  split
  · rename_i hc
    constructor
    · exact Or.inl
    · rintro (h | rfl)
      · exact h
      · simpa using hc
  · simp

theorem nodup_setAdd {s : List String} (y : String) (h : s.Nodup) :
    (setAdd s y).Nodup := by
  unfold setAdd
  split
  · exact h
  · rename_i hc
    refine List.Nodup.append h (List.nodup_singleton y) ?_
    intro a ha hb
    rcases List.mem_singleton.mp hb with rfl
    exact hc (by simpa using ha)

theorem mem_identify_aux (st : ParserState) :
    ∀ (entries : List (String × List FKRecord)) (acc : List String) (x : String),
      x ∈ entries.foldl (junctionStep st) acc ↔
        x ∈ acc ∨ ∃ p ∈ entries, p.1 = x ∧ isJunctionEntry st p = true
  | [], acc, x => by simp
  | p :: entries, acc, x => by
    simp only [List.foldl_cons, junctionStep_eq]
    rw [mem_identify_aux st entries]
    by_cases hj : isJunctionEntry st p = true
    · simp only [hj, if_true, mem_setAdd]
      constructor
      · rintro ((h | rfl) | h)
        · exact Or.inl h
        · exact Or.inr ⟨p, List.mem_cons_self p entries, rfl, hj⟩
        · obtain ⟨q, hq, hqx, hqj⟩ := h
          exact Or.inr ⟨q, List.mem_cons_of_mem p hq, hqx, hqj⟩
      · rintro (h | ⟨q, hq, hqx, hqj⟩)
        · exact Or.inl (Or.inl h)
        · rcases List.mem_cons.mp hq with rfl | hq2
          · exact Or.inl (Or.inr hqx.symm)
          · exact Or.inr ⟨q, hq2, hqx, hqj⟩
    · simp only [hj, if_false]
      constructor
      · rintro (h | ⟨q, hq, hqx, hqj⟩)
        · exact Or.inl h
        · exact Or.inr ⟨q, List.mem_cons_of_mem p hq, hqx, hqj⟩
      · rintro (h | ⟨q, hq, hqx, hqj⟩)
        · exact Or.inl h
        · rcases List.mem_cons.mp hq with rfl | hq2
          · exact absurd hqj hj
          · exact Or.inr ⟨q, hq2, hqx, hqj⟩

theorem mem_identifyJunctionTables {st : ParserState} {x : String} :
    x ∈ identifyJunctionTables st ↔
      ∃ p ∈ st.foreignKeys, p.1 = x ∧ isJunctionEntry st p = true := by
  unfold identifyJunctionTables
  rw [mem_identify_aux st st.foreignKeys [] x]
  simp

theorem nodup_identify_aux (st : ParserState) :
    ∀ (entries : List (String × List FKRecord)) (acc : List String),
      acc.Nodup → (entries.foldl (junctionStep st) acc).Nodup
  | [], _, h => h
  | p :: entries, acc, h => by
    simp only [List.foldl_cons, junctionStep_eq]
    apply nodup_identify_aux st entries
    split
    · exact nodup_setAdd p.1 h
    · exact h

theorem nodup_identifyJunctionTables (st : ParserState) :
    (identifyJunctionTables st).Nodup :=
  nodup_identify_aux st st.foreignKeys [] List.nodup_nil

/-! ## Membership in the pass relationship lists -/

theorem mem_m2mList {fks : List (String × List FKRecord)} {j : String}
    {r : Relationship} (h : r ∈ m2mList fks j) :
    r.type = RelType.MANY_TO_MANY ∧ r.junctionTable = some j := by
  unfold m2mList at h
  split at h
  · rcases List.mem_singleton.mp h with rfl
    exact ⟨rfl, rfl⟩
  · simp at h

theorem mem_junctionRelsList {fks : List (String × List FKRecord)}
    {js : List String} {r : Relationship} (h : r ∈ junctionRelsList fks js) :
    r.type = RelType.MANY_TO_MANY ∧ ∃ j ∈ js, r.junctionTable = some j := by
  unfold junctionRelsList at h
  obtain ⟨j, hj, hr⟩ := List.mem_flatMap.mp h
  obtain ⟨h1, h2⟩ := mem_m2mList hr
  exact ⟨h1, j, hj, h2⟩

theorem mem_directRelsList {st : ParserState} {js : List String}
    {r : Relationship} (h : r ∈ directRelsList st js) :
    r.junctionTable = none ∧ r.type ≠ RelType.MANY_TO_MANY ∧
      ∃ p ∈ st.foreignKeys, ¬(js.contains p.1 = true) ∧ r.from_.table = p.1 := by
  unfold directRelsList at h
  obtain ⟨p, hp, hr⟩ := List.mem_flatMap.mp h
  unfold entryRels at hr
  split at hr
  · simp at hr
  · rename_i hc
    obtain ⟨fk, _, rfl⟩ := List.mem_map.mp hr
    exact ⟨rfl, determineRelationshipType_ne_M2M st p.1 fk.column fk.refTable
      fk.refColumn, p, hp, hc, rfl⟩

theorem filter_m2mList_self {fks : List (String × List FKRecord)} {j : String} :
    (m2mList fks j).filter (fun r => r.junctionTable == some j) = m2mList fks j := by
  unfold m2mList
  split <;> simp

theorem filter_m2mList_other {fks : List (String × List FKRecord)} {j j' : String}
    (h : j' ≠ j) :
    (m2mList fks j').filter (fun r => r.junctionTable == some j) = [] := by
  unfold m2mList
  split <;> simp [h]

theorem filter_junctionRelsList {fks : List (String × List FKRecord)} :
    ∀ {js : List String} {j : String}, js.Nodup → j ∈ js →
      (junctionRelsList fks js).filter (fun r => r.junctionTable == some j) =
        m2mList fks j := by
  intro js
  induction js with
  | nil => intro j _ hj; simp at hj
  | cons j' js ih =>
    intro j hnd hj
    have hnd2 := List.nodup_cons.mp hnd
    unfold junctionRelsList
    simp only [List.flatMap_cons, List.filter_append]
    rcases List.mem_cons.mp hj with rfl | hj2
    · rw [filter_m2mList_self]
      have : (junctionRelsList fks js).filter (fun r => r.junctionTable == some j) = [] := by
        apply List.filter_eq_nil_iff.mpr
        intro r hr
        obtain ⟨_, j2, hj2mem, hj2eq⟩ := mem_junctionRelsList hr
        simp only [beq_iff_eq, hj2eq]
        intro hcontra
        rcases Option.some_inj.mp hcontra with rfl
        exact hnd2.1 hj2mem
      unfold junctionRelsList at this
      rw [this, List.append_nil]
    · have hne : j' ≠ j := by
        rintro rfl
        exact hnd2.1 hj2
      rw [filter_m2mList_other hne]
      have := ih hnd2.2 hj2
      unfold junctionRelsList at this
      rw [this, List.nil_append]

/-! ## The lower-case invariant -/

theorem noUpper_empty : noUpperStr "" := by
  intro c hc
  simp [String.data] at hc

theorem noUpper_cleanCols {cap : String} : ∀ x ∈ cleanCols cap, noUpperStr x := by
  intro x hx
  obtain ⟨col, _, rfl⟩ := List.mem_map.mp hx
  exact noUpper_strLower _

theorem noUpper_getD {l : List String} (hl : ∀ x ∈ l, noUpperStr x) (i : Nat) :
    noUpperStr (l.getD i "") := by
  by_cases h : i < l.length
  · rw [List.getD_eq_getElem l "" h]
    exact hl _ (List.getElem_mem h)
  · rw [List.getD_eq_default l "" (by omega)]
    exact noUpper_empty

theorem noUpper_parseFK {d : String} {fks : List FKRecord}
    (h : ∀ fk ∈ fks, noUpperStr fk.column ∧ noUpperStr fk.refTable ∧
      noUpperStr fk.refColumn) :
    ∀ fk ∈ parseForeignKeyConstraint d fks,
      noUpperStr fk.column ∧ noUpperStr fk.refTable ∧ noUpperStr fk.refColumn := by
  unfold parseForeignKeyConstraint
  cases heq : searchFk d with
  | none => exact h
  | some caps =>
    obtain ⟨cap1, cap2, cap3⟩ := caps
    dsimp only
    intro fk hfk
    rcases List.mem_append.mp hfk with hl | hr
    · exact h fk hl
    · obtain ⟨p, hp, rfl⟩ := List.mem_map.mp hr
      refine ⟨?_, noUpper_strLower _, ?_⟩
      · have h3 : p.2 ∈ cleanCols cap1 := by
          have h2 := List.mem_map_of_mem Prod.snd hp
          rwa [List.enum_map_snd] at h2
        exact noUpper_cleanCols p.2 h3
      · dsimp only
        split
        · exact noUpper_getD noUpper_cleanCols 0
        · exact noUpper_getD noUpper_cleanCols p.1

theorem parseColumnDefinition_none_fk {d : String} {c : Column}
    (h : parseColumnDefinition d = some c) : c.foreignKey = none := by
  unfold parseColumnDefinition at h
  dsimp only at h
  split at h
  · cases h
    rfl
  · cases h

theorem parseColumnDefinition_name {d : String} {c : Column}
    (h : parseColumnDefinition d = some c) : noUpperStr c.name := by
  unfold parseColumnDefinition at h
  dsimp only at h
  split at h
  · cases h
    exact noUpper_strLower _
  · cases h

theorem tacc_columns_uniqs (c : Prop) [inst : Decidable c] (X : TableAcc)
    (u : List String) :
    (if c then { X with uniqs := u } else X).columns = X.columns := by
  split <;> rfl

theorem tacc_fks_uniqs (c : Prop) [inst : Decidable c] (X : TableAcc)
    (u : List String) :
    (if c then { X with uniqs := u } else X).fks = X.fks := by
  split <;> rfl

theorem processDefinition_inv {acc : TableAcc} {d : String}
    (h1 : ∀ c ∈ acc.columns, noUpperStr c.name)
    (h2 : ∀ fk ∈ acc.fks, noUpperStr fk.column ∧ noUpperStr fk.refTable ∧
      noUpperStr fk.refColumn) :
    (∀ c ∈ (processDefinition acc d).columns, noUpperStr c.name) ∧
      (∀ fk ∈ (processDefinition acc d).fks, noUpperStr fk.column ∧
        noUpperStr fk.refTable ∧ noUpperStr fk.refColumn) := by
  unfold processDefinition
  dsimp only
  split
  · split
    · exact ⟨h1, h2⟩
    · exact ⟨h1, h2⟩
  · split
    · exact ⟨h1, noUpper_parseFK h2⟩
    · split
      · exact ⟨h1, h2⟩
      · split
        · split
          · exact ⟨h1, h2⟩
          · rename_i column hcol
            have hfk := parseColumnDefinition_none_fk hcol
            have hnm := parseColumnDefinition_name hcol
            simp only [hfk]
            constructor
            · intro c hc
              rw [tacc_columns_uniqs, apply_ite TableAcc.columns] at hc
              dsimp only at hc
              rw [ite_self] at hc
              rcases List.mem_append.mp hc with hcl | hcr
              · exact h1 c hcl
              · rcases List.mem_singleton.mp hcr with rfl
                exact hnm
            · intro fk hfk2
              rw [tacc_fks_uniqs, apply_ite TableAcc.fks] at hfk2
              dsimp only at hfk2
              rw [ite_self] at hfk2
              exact h2 fk hfk2
        · exact ⟨h1, h2⟩

theorem processDefs_inv : ∀ (defs : List String) (acc : TableAcc),
    (∀ c ∈ acc.columns, noUpperStr c.name) →
    (∀ fk ∈ acc.fks, noUpperStr fk.column ∧ noUpperStr fk.refTable ∧
      noUpperStr fk.refColumn) →
    (∀ c ∈ (defs.foldl processDefinition acc).columns, noUpperStr c.name) ∧
      (∀ fk ∈ (defs.foldl processDefinition acc).fks, noUpperStr fk.column ∧
        noUpperStr fk.refTable ∧ noUpperStr fk.refColumn)
  | [], acc, h1, h2 => ⟨h1, h2⟩
  | d :: defs, acc, h1, h2 => by
    simp only [List.foldl_cons]
    obtain ⟨g1, g2⟩ := processDefinition_inv h1 h2
    exact processDefs_inv defs _ g1 g2

theorem setFK_names : ∀ (cols : List Column) (fk : FKRecord),
    ∀ c' ∈ setFK cols fk, ∃ c ∈ cols, c'.name = c.name
  | [], _, c', h => by simp [setFK] at h
  | c :: cols, fk, c', h => by
    unfold setFK at h
    split at h
    · rcases List.mem_cons.mp h with rfl | hm
      · exact ⟨c, List.mem_cons_self c cols, rfl⟩
      · exact ⟨c', List.mem_cons_of_mem c hm, rfl⟩
    · rcases List.mem_cons.mp h with rfl | hm
      · exact ⟨c', List.mem_cons_self c' cols, rfl⟩
      · obtain ⟨c0, hc0, he⟩ := setFK_names cols fk c' hm
        exact ⟨c0, List.mem_cons_of_mem c hc0, he⟩

theorem setFK_fold_names : ∀ (fks : List FKRecord) (cols : List Column),
    (∀ c ∈ cols, noUpperStr c.name) →
    ∀ c' ∈ fks.foldl setFK cols, noUpperStr c'.name
  | [], cols, h, c', hc => h c' hc
  | fk :: fks, cols, h, c', hc => by
    simp only [List.foldl_cons] at hc
    refine setFK_fold_names fks (setFK cols fk) ?_ c' hc
    intro c2 hc2
    obtain ⟨c0, hc0, he⟩ := setFK_names cols fk c2 hc2
    rw [he]
    exact h c0 hc0

theorem lowerInv_parseCreateTable {st : ParserState} (h : LowerInv st)
    (stmt : String) : LowerInv (parseCreateTable st stmt) := by
  obtain ⟨ht, hf, hr⟩ := h
  unfold parseCreateTable
  split
  · exact ⟨ht, hf, hr⟩
  · rename_i rawName heq
    dsimp only
    split
    · exact ⟨ht, hf, hr⟩
    · rename_i content heq2
      obtain ⟨hcols, hfks⟩ := processDefs_inv (splitColumnDefinitions content)
        ⟨[], [], [], []⟩ (by intro c hc; simp at hc) (by intro fk hfk; simp at hfk)
      refine ⟨?_, ?_, hr⟩
      · intro p hp
        rcases mem_mapSet hp with hold | heqp
        · exact ht p hold
        · rw [heqp]
          refine ⟨noUpper_strLower _, noUpper_strLower _, ?_⟩
          intro c hc
          refine setFK_fold_names _ _ ?_ c hc
          intro c2 hc2
          obtain ⟨c0, hc0, hmap⟩ := List.mem_map.mp hc2
          have hn : c2.name = c0.name := by
            rw [← hmap]
            split <;> rfl
          rw [hn]
          exact hcols c0 hc0
      · intro p hp
        rcases mem_mapSet hp with hold | heqp
        · exact hf p hold
        · rw [heqp]
          exact ⟨noUpper_strLower _, hfks⟩

theorem lowerInv_processStatement {st : ParserState} (h : LowerInv st)
    (stmt : String) : LowerInv (processStatement st stmt) := by
  unfold processStatement
  split
  · exact lowerInv_parseCreateTable h stmt
  · exact h

theorem lowerInv_runStmts : ∀ (stmts : List String) (st : ParserState),
    LowerInv st → LowerInv (runStmts st stmts)
  | [], _, h => h
  | stmt :: stmts, st, h => by
    unfold runStmts
    simp only [List.foldl_cons]
    exact lowerInv_runStmts stmts _ (lowerInv_processStatement h (trimStr stmt))

theorem lowerInv_parseSQLState (script : String) :
    LowerInv (parseSQLState script) := by
  unfold parseSQLState parseSQL
  refine lowerInv_runStmts _ emptyState ⟨?_, ?_, ?_⟩ <;>
    intro x hx <;> simp [emptyState] at hx

theorem lowerRel_m2mList {fks : List (String × List FKRecord)}
    (hf : ∀ p ∈ fks, ∀ fk ∈ p.2, noUpperStr fk.column ∧ noUpperStr fk.refTable ∧
      noUpperStr fk.refColumn) (j : String) :
    ∀ r ∈ m2mList fks j, lowerRel r := by
  intro r hr
  unfold m2mList at hr
  split at hr
  · rename_i fk1 fk2 hG
    rcases List.mem_singleton.mp hr with rfl
    have hmem := mapGet_mem hG
    have h1 := hf _ hmem fk1 (by simp)
    have h2 := hf _ hmem fk2 (by simp)
    exact ⟨h1.2.1, h1.2.2, h2.2.1, h2.2.2⟩
  · simp at hr

theorem lowerRel_junctionRelsList {fks : List (String × List FKRecord)}
    (hf : ∀ p ∈ fks, ∀ fk ∈ p.2, noUpperStr fk.column ∧ noUpperStr fk.refTable ∧
      noUpperStr fk.refColumn) (js : List String) :
    ∀ r ∈ junctionRelsList fks js, lowerRel r := by
  intro r hr
  obtain ⟨j, _, hrm⟩ := List.mem_flatMap.mp hr
  exact lowerRel_m2mList hf j r hrm

theorem lowerRel_directRelsList {st : ParserState} {js : List String}
    (hf : ∀ p ∈ st.foreignKeys, noUpperStr p.1 ∧
      ∀ fk ∈ p.2, noUpperStr fk.column ∧ noUpperStr fk.refTable ∧
        noUpperStr fk.refColumn) :
    ∀ r ∈ directRelsList st js, lowerRel r := by
  intro r hr
  unfold directRelsList at hr
  obtain ⟨p, hp, hrm⟩ := List.mem_flatMap.mp hr
  unfold entryRels at hrm
  split at hrm
  · simp at hrm
  · obtain ⟨fk, hfk, rfl⟩ := List.mem_map.mp hrm
    exact ⟨(hf p hp).1, ((hf p hp).2 fk hfk).1, ((hf p hp).2 fk hfk).2.1,
      ((hf p hp).2 fk hfk).2.2⟩

theorem lowerRel_convShape {tbls : List (String × Table)}
    (ht : ∀ p ∈ tbls, noUpperStr p.1 ∧ noUpperStr p.2.name ∧
      ∀ c ∈ p.2.columns, noUpperStr c.name)
    {r : Relationship} (hs : convShape tbls r) : lowerRel r := by
  obtain ⟨⟨p, hp, hft, c, hc, hfc⟩, ⟨q, hq, htt⟩, htc⟩ := hs
  refine ⟨?_, ?_, ?_, ?_⟩
  · rw [hft]; exact (ht p hp).1
  · rw [hfc]; exact (ht p hp).2.2 c hc
  · rw [htt]; exact (ht q hq).1
  · rw [htc]; unfold noUpperStr; decide

/-! ## Support lemmas for the statement splitter and error handling -/

theorem splitOnChar_ne_nil (sep : Char) : ∀ (l : List Char), splitOnChar sep l ≠ []
  | [] => by simp [splitOnChar]
  | c :: rest => by
    unfold splitOnChar
    split
    · simp
    · split <;> simp

theorem joinWith_cons (sep : Char) (g : List Char) {gs : List (List Char)}
    (h : gs ≠ []) : joinWith sep (g :: gs) = g ++ sep :: joinWith sep gs := by
  cases gs with
  | nil => exact absurd rfl h
  | cons g2 gs2 => rfl

theorem joinWith_splitOnChar (sep : Char) :
    ∀ (l : List Char), joinWith sep (splitOnChar sep l) = l
  | [] => rfl
  | c :: rest => by
    unfold splitOnChar
    split
    · rename_i hc
      rw [joinWith_cons sep [] (splitOnChar_ne_nil sep rest),
        joinWith_splitOnChar sep rest, hc]
      rfl
    · cases hsp : splitOnChar sep rest with
      | nil => exact absurd hsp (splitOnChar_ne_nil sep rest)
      | cons g gs =>
        have hIH := joinWith_splitOnChar sep rest
        rw [hsp] at hIH
        cases gs with
        | nil =>
          simp only [joinWith] at hIH ⊢
          rw [hIH]
        | cons g2 gs2 =>
          rw [joinWith_cons sep g (by simp)] at hIH
          rw [joinWith_cons sep (c :: g) (by simp), ← hIH]
          rfl

theorem splitOnChar_not_mem (sep : Char) :
    ∀ (l : List Char), ∀ g ∈ splitOnChar sep l, sep ∉ g
  | [], g, hg => by
    simp only [splitOnChar, List.mem_singleton] at hg
    simp [hg]
  | c :: rest, g, hg => by
    unfold splitOnChar at hg
    split at hg
    · rcases List.mem_cons.mp hg with rfl | hm
      · simp
      · exact splitOnChar_not_mem sep rest g hm
    · rename_i hc
      cases hsp : splitOnChar sep rest with
      | nil => exact absurd hsp (splitOnChar_ne_nil sep rest)
      | cons g0 gs =>
        rw [hsp] at hg
        rcases List.mem_cons.mp hg with rfl | hm
        · intro hmem
          rcases List.mem_cons.mp hmem with heq | hm2
          · exact hc heq.symm
          · exact splitOnChar_not_mem sep rest g0 (by rw [hsp]; exact List.mem_cons_self g0 gs) hm2
        · exact splitOnChar_not_mem sep rest g (by rw [hsp]; exact List.mem_cons_of_mem g0 hm)

theorem parseCreateTable_noop {st : ParserState} {stmt : String}
    (h : searchCreateName stmt = none ∨ parenContent stmt = none) :
    parseCreateTable st stmt = st := by
  unfold parseCreateTable
  cases hsn : searchCreateName stmt with
  | none => rfl
  | some rawName =>
    dsimp only
    cases hpc : parenContent stmt with
    | none => rfl
    | some content =>
      rcases h with h | h
      · rw [hsn] at h; cases h
      · rw [hpc] at h; cases h

theorem processStatement_noop {st : ParserState} {stmt : String}
    (h : searchCreateName stmt = none ∨ parenContent stmt = none) :
    processStatement st stmt = st := by
  unfold processStatement
  split
  · exact parseCreateTable_noop h
  · rfl

theorem runStmts_append (st : ParserState) (xs ys : List String) :
    runStmts st (xs ++ ys) = runStmts (runStmts st xs) ys := by
  unfold runStmts
  exact List.foldl_append _ _ _ _

/-! ## The claims -/

set_option maxRecDepth 40000

/-- Claim C1, counterexample: the relationship list returned by
`parseSQLScript` is not sorted by cardinality priority and source key —
the direct pass emits relationships in table-insertion order (`z.x`
before `a.y`), so the claimed output shape is violated. -/
theorem claim_C1_counterexample :
    claimC1Shape (parseSQLScript ("CREATE TABLE b (id INT, PRIMARY KEY (id)); " ++
      "CREATE TABLE z (x INT, FOREIGN KEY (x) REFERENCES b (id)); " ++
      "CREATE TABLE a (y INT, FOREIGN KEY (y) REFERENCES b (id))")).relationships = false := by
  decide

/-- Claim C1, amended: the relationship list is the junction-pass
relationships, then the direct-pass relationships (in `foreignKeys`
insertion order), then the convention-pass relationships; only the
convention pass deduplicates, skipping any candidate whose
(fromTable, fromColumn, toTable, toColumn) tuple already occurs earlier
in the list; no global deduplication or sorting is applied. -/
theorem claim_C1 (script : String) :
    ∃ convNew : List Relationship,
      (parseSQLScript script).relationships =
        junctionRelsList (parseSQLState script).foreignKeys
            (identifyJunctionTables (parseSQLState script)) ++
          directRelsList (parseSQLState script)
            (identifyJunctionTables (parseSQLState script)) ++ convNew ∧
      FreshOver
        (junctionRelsList (parseSQLState script).foreignKeys
            (identifyJunctionTables (parseSQLState script)) ++
          directRelsList (parseSQLState script)
            (identifyJunctionTables (parseSQLState script))) convNew := by
  obtain ⟨convNew, _, hrel, hfresh, _⟩ := analyze_decomp (parseSQLState script)
  rw [relationships_parseSQLState] at hrel hfresh
  refine ⟨convNew, ?_, ?_⟩
  · show (analyzeRelationships (parseSQLState script)).relationships = _
    rw [hrel]
    simp
  · simpa using hfresh

/-- Claim C2, counterexample: the statement splitter is not quote-aware —
a `;` inside a single-quoted literal ends a statement, unlike the
spec-modelled quote-aware splitter. -/
theorem claim_C2_counterexample :
    splitStatements "SELECT \x27a;b\x27" = ["SELECT \x27a", "b\x27"] ∧
      specSplitStatements "SELECT \x27a;b\x27" = ["SELECT \x27a;b\x27"] := by
  decide

/-- Claim C2, amended: statement splitting first strips line and block
comments, then splits the text at every `;` (including any inside quoted
literals), keeping the untrimmed pieces whose trim is nonempty, in source
order; rejoining the split pieces with `;` restores the comment-stripped
text, and every produced statement is `;`-free with nonempty trim. -/
theorem claim_C2 (sql : String) :
    splitStatements sql =
      ((splitOnChar ';' (stripBlockComments (stripLineComments sql)).data).map
        (fun g => (⟨g⟩ : String))).filter
        (fun stmt => !(trimChars stmt.data).isEmpty) ∧
    joinWith ';' (splitOnChar ';' (stripBlockComments (stripLineComments sql)).data) =
      (stripBlockComments (stripLineComments sql)).data ∧
    ∀ stmt ∈ splitStatements sql,
      (trimChars stmt.data).isEmpty = false ∧ stmt.data.contains ';' = false := by
  refine ⟨rfl, joinWith_splitOnChar ';' _, ?_⟩
  intro stmt hstmt
  have hstmt2 : stmt ∈ ((splitOnChar ';'
      (stripBlockComments (stripLineComments sql)).data).map
      (fun g => (⟨g⟩ : String))).filter
      (fun stmt => !(trimChars stmt.data).isEmpty) := hstmt
  obtain ⟨hmem, hcond⟩ := List.mem_filter.mp hstmt2
  constructor
  · simpa using hcond
  · obtain ⟨g, hg, rfl⟩ := List.mem_map.mp hmem
    have hnm := splitOnChar_not_mem ';' _ g hg
    simpa using hnm

/-- Witness for claim C2 at a concrete input. -/
theorem claim_C2_witness :
    ("CREATE TABLE g1 (a INT)" : String) ∈ splitStatements
      "CREATE TABLE g1 (a INT); CREATE TABLE oops; CREATE TABLE g2 (b INT)" ∧
    ((trimChars ("CREATE TABLE g1 (a INT)" : String).data).isEmpty = false ∧
      ("CREATE TABLE g1 (a INT)" : String).data.contains ';' = false) :=
  ⟨by decide, (claim_C2 "CREATE TABLE g1 (a INT); CREATE TABLE oops; CREATE TABLE g2 (b INT)").2.2
    "CREATE TABLE g1 (a INT)" (by decide)⟩

/-- Claim C3, counterexample: an inline `REFERENCES` clause does not
populate `foreignKey` — table `c`'s column `pid INT REFERENCES p (id)`
comes back with `foreignKey = none`. -/
theorem claim_C3_counterexample :
    (parseSQLScript ("CREATE TABLE p (id INT, PRIMARY KEY (id)); " ++
      "CREATE TABLE c (pid INT REFERENCES p (id))")).tables =
      [{ name := "p", columns := [⟨"id", "INT", true, true, none⟩] },
       { name := "c", columns := [⟨"pid", "INT", true, false, none⟩] }] := by
  decide

/-- Claim C3, amended: `foreignKey` is populated only from table-level
`FOREIGN KEY` constraints — column parsing never produces one (inline
`REFERENCES` is ignored) — and a matched table-level constraint appends
one record per source column, paired with the referenced column at the
same index and falling back to the first referenced column when that
index is missing or empty. -/
theorem claim_C3 :
    (∀ (d : String) (c : Column), parseColumnDefinition d = some c →
      c.foreignKey = none) ∧
    ∀ (d : String) (fks : List FKRecord) (ss tt ts : String),
      searchFk d = some (ss, tt, ts) →
      parseForeignKeyConstraint d fks =
        fks ++ mkFKPairs (cleanCols ss) (strLower (trimStr tt)) (cleanCols ts) := by
  constructor
  · intro d c h
    exact parseColumnDefinition_none_fk h
  · intro d fks ss tt ts h
    unfold parseForeignKeyConstraint mkFKPairs
    rw [h]

/-- Witness for claim C3 at concrete inputs. -/
theorem claim_C3_witness :
    parseColumnDefinition "pid INT REFERENCES p (id)" =
      some ⟨"pid", "INT", true, false, none⟩ ∧
    (⟨"pid", "INT", true, false, none⟩ : Column).foreignKey = none ∧
    searchFk "FOREIGN KEY (a, b) REFERENCES t (x)" = some ("a, b", "t", "x") ∧
    parseForeignKeyConstraint "FOREIGN KEY (a, b) REFERENCES t (x)" [] =
      [] ++ mkFKPairs (cleanCols "a, b") (strLower (trimStr "t")) (cleanCols "x") :=
  ⟨by decide, claim_C3.1 "pid INT REFERENCES p (id)" _ (by decide), by decide,
    claim_C3.2 "FOREIGN KEY (a, b) REFERENCES t (x)" [] "a, b" "t" "x" (by decide)⟩

/-- Claim C4, counterexample: the audit-column list of the claim (any name
containing `date_`) disagrees with the code's `isTimestampColumn`
patterns (`date_created`, `date_modified` only): table `j` with extra
columns `date_x`, `date_y`, `date_z` is a junction by the claim's
criterion but is not classified as one. -/
theorem claim_C4_counterexample :
    claimJunction (parseSQLState ("CREATE TABLE a (id INT, PRIMARY KEY (id)); " ++
      "CREATE TABLE b (id INT, PRIMARY KEY (id)); " ++
      "CREATE TABLE j (a_id INT, b_id INT, date_x INT, date_y INT, date_z INT, " ++
      "PRIMARY KEY (a_id, b_id), FOREIGN KEY (a_id) REFERENCES a (id), " ++
      "FOREIGN KEY (b_id) REFERENCES b (id))")) "j" = true ∧
    (identifyJunctionTables (parseSQLState ("CREATE TABLE a (id INT, PRIMARY KEY (id)); " ++
      "CREATE TABLE b (id INT, PRIMARY KEY (id)); " ++
      "CREATE TABLE j (a_id INT, b_id INT, date_x INT, date_y INT, date_z INT, " ++
      "PRIMARY KEY (a_id, b_id), FOREIGN KEY (a_id) REFERENCES a (id), " ++
      "FOREIGN KEY (b_id) REFERENCES b (id))"))).contains "j" = false := by
  decide

/-- Claim C4, amended: a table is classified as a junction iff its
`foreignKeys` entry holds exactly two per-column records, its recorded
primary-key list has exactly two entries each among the (lower-cased)
foreign-key columns, and at most two columns remain after dropping
foreign-key columns and columns matched by `isTimestampColumn` (whose
patterns are `created_at`, `updated_at`, `deleted_at`, `timestamp`,
`date_created`, `date_modified`, as substrings of the lower-cased name). -/
theorem claim_C4 (script : String) (tn : String) :
    tn ∈ identifyJunctionTables (parseSQLState script) ↔
      ∃ fks table,
        mapGet (parseSQLState script).foreignKeys tn = some fks ∧
        mapGet (parseSQLState script).tables tn = some table ∧
        fks.length = 2 ∧
        ((mapGet (parseSQLState script).primaryKeys tn).getD []).length = 2 ∧
        ((mapGet (parseSQLState script).primaryKeys tn).getD []).all (fun pk =>
          (fks.map (fun fk => strLower fk.column)).contains (strLower pk)) = true ∧
        (table.columns.filter (fun col =>
          !((fks.map (fun fk => strLower fk.column)).contains (strLower col.name)) &&
            !(isTimestampColumn col.name))).length ≤ 2 := by
  rw [mem_identifyJunctionTables]
  constructor
  · rintro ⟨⟨k, fks⟩, hp, rfl, hj⟩
    have hget : mapGet (parseSQLState script).foreignKeys k = some fks :=
      mapGet_of_mem_nodup (fkKeys_nodup_parseSQLState script) hp
    unfold isJunctionEntry at hj
    cases hC : mapGet (parseSQLState script).tables k with
    | none => rw [hC] at hj; simp at hj
    | some table =>
      rw [hC] at hj
      dsimp only at hj
      split at hj
      · rename_i hlen
        simp only [Bool.and_eq_true, decide_eq_true_eq] at hj
        exact ⟨fks, table, hget, rfl, hlen, hj.1.1, hj.1.2, hj.2⟩
      · cases hj
  · rintro ⟨fks, table, hget, htab, hlen, hpklen, hall, hfil⟩
    refine ⟨(tn, fks), mapGet_mem hget, rfl, ?_⟩
    unfold isJunctionEntry
    rw [htab]
    dsimp only
    rw [if_pos hlen]
    simp only [Bool.and_eq_true, decide_eq_true_eq]
    exact ⟨⟨hpklen, hall⟩, hfil⟩

/-- Witness for claim C4 at a concrete junction table. -/
theorem claim_C4_witness :
    ("ab" : String) ∈ identifyJunctionTables (parseSQLState
      ("CREATE TABLE a (id INT, PRIMARY KEY (id)); " ++
       "CREATE TABLE b (id INT, PRIMARY KEY (id)); " ++
       "CREATE TABLE ab (a_id INT, b_id INT, PRIMARY KEY (a_id, b_id), " ++
       "FOREIGN KEY (a_id) REFERENCES a (id), FOREIGN KEY (b_id) REFERENCES b (id))")) ∧
    ∃ fks table,
      mapGet (parseSQLState
        ("CREATE TABLE a (id INT, PRIMARY KEY (id)); " ++
         "CREATE TABLE b (id INT, PRIMARY KEY (id)); " ++
         "CREATE TABLE ab (a_id INT, b_id INT, PRIMARY KEY (a_id, b_id), " ++
         "FOREIGN KEY (a_id) REFERENCES a (id), FOREIGN KEY (b_id) REFERENCES b (id))")).foreignKeys
        "ab" = some fks ∧
      mapGet (parseSQLState
        ("CREATE TABLE a (id INT, PRIMARY KEY (id)); " ++
         "CREATE TABLE b (id INT, PRIMARY KEY (id)); " ++
         "CREATE TABLE ab (a_id INT, b_id INT, PRIMARY KEY (a_id, b_id), " ++
         "FOREIGN KEY (a_id) REFERENCES a (id), FOREIGN KEY (b_id) REFERENCES b (id))")).tables
        "ab" = some table ∧
      fks.length = 2 ∧
      ((mapGet (parseSQLState
        ("CREATE TABLE a (id INT, PRIMARY KEY (id)); " ++
         "CREATE TABLE b (id INT, PRIMARY KEY (id)); " ++
         "CREATE TABLE ab (a_id INT, b_id INT, PRIMARY KEY (a_id, b_id), " ++
         "FOREIGN KEY (a_id) REFERENCES a (id), FOREIGN KEY (b_id) REFERENCES b (id))")).primaryKeys
        "ab").getD []).length = 2 ∧
      ((mapGet (parseSQLState
        ("CREATE TABLE a (id INT, PRIMARY KEY (id)); " ++
         "CREATE TABLE b (id INT, PRIMARY KEY (id)); " ++
         "CREATE TABLE ab (a_id INT, b_id INT, PRIMARY KEY (a_id, b_id), " ++
         "FOREIGN KEY (a_id) REFERENCES a (id), FOREIGN KEY (b_id) REFERENCES b (id))")).primaryKeys
        "ab").getD []).all (fun pk =>
          (fks.map (fun fk => strLower fk.column)).contains (strLower pk)) = true ∧
      (table.columns.filter (fun col =>
        !((fks.map (fun fk => strLower fk.column)).contains (strLower col.name)) &&
          !(isTimestampColumn col.name))).length ≤ 2 :=
  ⟨by decide, (claim_C4
    ("CREATE TABLE a (id INT, PRIMARY KEY (id)); " ++
     "CREATE TABLE b (id INT, PRIMARY KEY (id)); " ++
     "CREATE TABLE ab (a_id INT, b_id INT, PRIMARY KEY (a_id, b_id), " ++
     "FOREIGN KEY (a_id) REFERENCES a (id), FOREIGN KEY (b_id) REFERENCES b (id))") "ab").mp
    (by decide)⟩

/-- Claim C5, confirmed: for a junction table `j` with foreign keys
`fk1`, `fk2`, the output holds exactly one relationship carrying
`junctionTable = j` — the MANY_TO_MANY edge from `fk1`'s referenced
endpoint to `fk2`'s — and the direct pass contributes no relationship
whose source table is `j`. -/
theorem claim_C5 (script j : String) (fk1 fk2 : FKRecord)
    (h1 : j ∈ identifyJunctionTables (parseSQLState script))
    (h2 : mapGet (parseSQLState script).foreignKeys j = some [fk1, fk2]) :
    (parseSQLScript script).relationships.filter
        (fun r => r.junctionTable == some j) =
      [{ from_ := { table := fk1.refTable, column := fk1.refColumn }
         to_ := { table := fk2.refTable, column := fk2.refColumn }
         type := RelType.MANY_TO_MANY, junctionTable := some j }] ∧
    ∀ r ∈ directRelsList (parseSQLState script)
        (identifyJunctionTables (parseSQLState script)), r.from_.table ≠ j := by
  obtain ⟨convNew, _, hrel, _, hP⟩ := analyze_decomp (parseSQLState script)
  rw [relationships_parseSQLState] at hrel
  constructor
  · have hps : (parseSQLScript script).relationships =
        (analyzeRelationships (parseSQLState script)).relationships := rfl
    rw [hps, hrel]
    simp only [List.nil_append, List.filter_append]
    rw [filter_junctionRelsList (nodup_identifyJunctionTables _) h1]
    have hd : (directRelsList (parseSQLState script)
        (identifyJunctionTables (parseSQLState script))).filter
        (fun r => r.junctionTable == some j) = [] := by
      apply List.filter_eq_nil_iff.mpr
      intro r hr
      simp [(mem_directRelsList hr).1]
    have hcv : convNew.filter (fun r => r.junctionTable == some j) = [] := by
      apply List.filter_eq_nil_iff.mpr
      intro r hr
      simp [(hP r hr).1]
    rw [hd, hcv, List.append_nil, List.append_nil]
    unfold m2mList
    rw [h2]
  · intro r hr hcontra
    obtain ⟨_, _, p, hp, hc, hft⟩ := mem_directRelsList hr
    apply hc
    rw [hft] at hcontra
    rw [hcontra]
    simpa using h1

/-- Witness for claim C5 on the junction script `a`, `b`, `ab`. -/
theorem claim_C5_witness :
    (parseSQLScript ("CREATE TABLE a (id INT, PRIMARY KEY (id)); " ++
      "CREATE TABLE b (id INT, PRIMARY KEY (id)); " ++
      "CREATE TABLE ab (a_id INT, b_id INT, PRIMARY KEY (a_id, b_id), " ++
      "FOREIGN KEY (a_id) REFERENCES a (id), FOREIGN KEY (b_id) REFERENCES b (id))")).relationships.filter
        (fun r => r.junctionTable == some "ab") =
      [{ from_ := { table := "a", column := "id" }
         to_ := { table := "b", column := "id" }
         type := RelType.MANY_TO_MANY, junctionTable := some "ab" }] ∧
    ∀ r ∈ directRelsList (parseSQLState ("CREATE TABLE a (id INT, PRIMARY KEY (id)); " ++
      "CREATE TABLE b (id INT, PRIMARY KEY (id)); " ++
      "CREATE TABLE ab (a_id INT, b_id INT, PRIMARY KEY (a_id, b_id), " ++
      "FOREIGN KEY (a_id) REFERENCES a (id), FOREIGN KEY (b_id) REFERENCES b (id))"))
        (identifyJunctionTables (parseSQLState ("CREATE TABLE a (id INT, PRIMARY KEY (id)); " ++
      "CREATE TABLE b (id INT, PRIMARY KEY (id)); " ++
      "CREATE TABLE ab (a_id INT, b_id INT, PRIMARY KEY (a_id, b_id), " ++
      "FOREIGN KEY (a_id) REFERENCES a (id), FOREIGN KEY (b_id) REFERENCES b (id))"))),
      r.from_.table ≠ "ab" :=
  claim_C5 ("CREATE TABLE a (id INT, PRIMARY KEY (id)); " ++
      "CREATE TABLE b (id INT, PRIMARY KEY (id)); " ++
      "CREATE TABLE ab (a_id INT, b_id INT, PRIMARY KEY (a_id, b_id), " ++
      "FOREIGN KEY (a_id) REFERENCES a (id), FOREIGN KEY (b_id) REFERENCES b (id))")
    "ab" ⟨"a_id", "a", "id"⟩ ⟨"b_id", "b", "id"⟩ (by decide) (by decide)

/-- Claim C6, counterexample: `p.id` carries a single-column `PRIMARY KEY`
constraint (and is not in `p`'s unique-constraint list) and `u.id` is
`u`'s primary key, so the claim prescribes ONE_TO_ONE; the resolver
returns MANY_TO_ONE because it consults only the unique-constraint
list. -/
theorem claim_C6_counterexample :
    mapGet (parseSQLState ("CREATE TABLE u (id INT, PRIMARY KEY (id)); " ++
      "CREATE TABLE p (id INT, PRIMARY KEY (id), FOREIGN KEY (id) REFERENCES u (id))")).primaryKeys
      "p" = some ["id"] ∧
    mapGet (parseSQLState ("CREATE TABLE u (id INT, PRIMARY KEY (id)); " ++
      "CREATE TABLE p (id INT, PRIMARY KEY (id), FOREIGN KEY (id) REFERENCES u (id))")).uniqueConstraints
      "p" = some [] ∧
    mapGet (parseSQLState ("CREATE TABLE u (id INT, PRIMARY KEY (id)); " ++
      "CREATE TABLE p (id INT, PRIMARY KEY (id), FOREIGN KEY (id) REFERENCES u (id))")).primaryKeys
      "u" = some ["id"] ∧
    (parseSQLScript ("CREATE TABLE u (id INT, PRIMARY KEY (id)); " ++
      "CREATE TABLE p (id INT, PRIMARY KEY (id), FOREIGN KEY (id) REFERENCES u (id))")).relationships =
      [{ from_ := { table := "p", column := "id" }, to_ := { table := "u", column := "id" }
         type := RelType.MANY_TO_ONE, junctionTable := none }] := by
  decide

/-- Claim C6, amended: the resolver returns ONE_TO_ONE exactly when the
(lower-cased) from-column occurs in the from-table's recorded
unique-constraint column list — populated from table-level `UNIQUE`
constraints (all their columns) and columns whose definition contains
`UNIQUE`, but not from primary keys — and the to-column occurs in the
to-table's primary-key list; in every other case it returns MANY_TO_ONE,
and it never returns ONE_TO_MANY or MANY_TO_MANY. -/
theorem claim_C6 (st : ParserState) (fromTable fromColumn toTable toColumn : String) :
    (determineRelationshipType st fromTable fromColumn toTable toColumn =
        RelType.ONE_TO_ONE ↔
      ((mapGet st.uniqueConstraints fromTable).getD []).contains
          (strLower fromColumn) = true ∧
        ((mapGet st.primaryKeys toTable).getD []).contains (strLower toColumn) = true) ∧
    determineRelationshipType st fromTable fromColumn toTable toColumn ≠
      RelType.ONE_TO_MANY ∧
    determineRelationshipType st fromTable fromColumn toTable toColumn ≠
      RelType.MANY_TO_MANY := by
  refine ⟨?_, ?_, determineRelationshipType_ne_M2M st fromTable fromColumn toTable toColumn⟩
  · unfold determineRelationshipType
    dsimp only
    by_cases hu : ((mapGet st.uniqueConstraints fromTable).getD []).contains
        (strLower fromColumn) = true <;>
      by_cases hp : ((mapGet st.primaryKeys toTable).getD []).contains
          (strLower toColumn) = true <;>
        simp [hu, hp]
  · rcases determineRelationshipType_cases st fromTable fromColumn toTable toColumn with h | h <;>
      simp [h]

/-- Claim C7, counterexample: the convention pass is not limited to the
claimed six candidate names — the second pattern's substring matching
links `t.user_id` to `user_accounts.id`, a table outside
`claimCandidates "user"`. -/
theorem claim_C7_counterexample :
    (parseSQLScript "CREATE TABLE user_accounts (id INT); CREATE TABLE t (user_id INT)").relationships =
      [{ from_ := { table := "t", column := "user_id" }
         to_ := { table := "user_accounts", column := "id" }
         type := RelType.MANY_TO_ONE, junctionTable := none }] ∧
    (claimCandidates "user").contains "user_accounts" = false := by
  decide

/-- Claim C7, amended: a candidate reference is produced for column
`columnName` against table `tn` exactly when `tn` differs from the
current table, `tn` has a column whose lower-cased name is `id`, and
either the first pattern matches (the lower-cased column ends in `_id`
and `tn` is the stem, the stem plus `s`, or the stem less its final
character) or the second pattern matches (the column contains `_id`, its
final `_`-segment is `id`, and the lower-cased table name contains the
stem or conversely); every candidate targets column `id`.  The emission
conditions of the claim (existing table, `id` column, type
compatibility, no duplicate tuple) are as the code applies them. -/
theorem claim_C7 (st : ParserState) (columnName : String)
    (tableNames : List String) (currentTable : String) (r : PossibleRef) :
    r ∈ findPossibleReferences st columnName tableNames currentTable ↔
      ∃ tn ∈ tableNames, tn ≠ currentTable ∧
        r = { tableName := tn, columnName := "id" } ∧
        hasIdColumn st tn = true ∧
        (pattern1Matches (strLower columnName) (strLower tn) = true ∨
          pattern2Matches (strLower columnName) (strLower tn) = true) :=
  mem_findPossibleReferences

/-- Claim C8, confirmed: a malformed `CREATE TABLE` statement — one whose
table-name pattern or parenthesised body fails to match — is skipped, and
the parse of the whole script equals the parse with that statement
removed; the (total) top level always returns the accumulated schema. -/
theorem claim_C8 (script : String) (xs ys : List String) (bad : String)
    (hsplit : splitStatements script = xs ++ bad :: ys)
    (hbad : searchCreateName (trimStr bad) = none ∨ parenContent (trimStr bad) = none) :
    parseSQLScript script =
      { tables := (analyzeRelationships (runStmts emptyState (xs ++ ys))).tables.map
          (fun p => p.2)
        relationships :=
          (analyzeRelationships (runStmts emptyState (xs ++ ys))).relationships } := by
  have hb : ∀ s : ParserState, runStmts s [bad] = s := by
    intro s
    unfold runStmts
    simp only [List.foldl_cons, List.foldl_nil]
    exact processStatement_noop hbad
  have hstate : parseSQLState script = runStmts emptyState (xs ++ ys) := by
    unfold parseSQLState parseSQL
    rw [hsplit, List.append_cons, runStmts_append, runStmts_append, hb,
      ← runStmts_append]
  unfold parseSQLScript
  rw [hstate]

/-- Witness for claim C8: the malformed `CREATE TABLE oops` is skipped and
both well-formed tables survive. -/
theorem claim_C8_witness :
    splitStatements "CREATE TABLE g1 (a INT); CREATE TABLE oops; CREATE TABLE g2 (b INT)" =
      ["CREATE TABLE g1 (a INT)"] ++ " CREATE TABLE oops" :: [" CREATE TABLE g2 (b INT)"] ∧
    parseSQLScript "CREATE TABLE g1 (a INT); CREATE TABLE oops; CREATE TABLE g2 (b INT)" =
      { tables := (analyzeRelationships (runStmts emptyState
          (["CREATE TABLE g1 (a INT)"] ++ [" CREATE TABLE g2 (b INT)"]))).tables.map
          (fun p => p.2)
        relationships := (analyzeRelationships (runStmts emptyState
          (["CREATE TABLE g1 (a INT)"] ++ [" CREATE TABLE g2 (b INT)"]))).relationships } ∧
    (parseSQLScript "CREATE TABLE g1 (a INT); CREATE TABLE oops; CREATE TABLE g2 (b INT)").tables =
      [{ name := "g1", columns := [⟨"a", "INT", true, false, none⟩] },
       { name := "g2", columns := [⟨"b", "INT", true, false, none⟩] }] :=
  ⟨by decide,
    claim_C8 "CREATE TABLE g1 (a INT); CREATE TABLE oops; CREATE TABLE g2 (b INT)"
      ["CREATE TABLE g1 (a INT)"] [" CREATE TABLE g2 (b INT)"] " CREATE TABLE oops"
      (by decide) (Or.inr (by decide)),
    by decide⟩

/-- Claim C9, confirmed: in every schema returned by `parseSQLScript`, a
relationship's `junctionTable` is set iff its cardinality is
MANY_TO_MANY — the junction pass always sets it on its MANY_TO_MANY
edges, and the direct and convention passes never set it nor produce
MANY_TO_MANY. -/
theorem claim_C9 (script : String) (r : Relationship)
    (hr : r ∈ (parseSQLScript script).relationships) :
    r.junctionTable ≠ none ↔ r.type = RelType.MANY_TO_MANY := by
  obtain ⟨convNew, _, hrel, _, hP⟩ := analyze_decomp (parseSQLState script)
  rw [relationships_parseSQLState] at hrel
  have hr2 : r ∈ (analyzeRelationships (parseSQLState script)).relationships := hr
  rw [hrel] at hr2
  simp only [List.nil_append, List.mem_append] at hr2
  rcases hr2 with (hj | hd) | hc
  · obtain ⟨hty, j, _, hjt⟩ := mem_junctionRelsList hj
    simp [hjt, hty]
  · obtain ⟨hjt, hty, _⟩ := mem_directRelsList hd
    simp [hjt, hty]
  · have h := hP r hc
    simp [h.1, h.2.1]

/-- Witness for claim C9 at the junction script's MANY_TO_MANY edge. -/
theorem claim_C9_witness :
    ({ from_ := { table := "a", column := "id" }, to_ := { table := "b", column := "id" }
       type := RelType.MANY_TO_MANY, junctionTable := some "ab" } : Relationship) ∈
      (parseSQLScript ("CREATE TABLE a (id INT, PRIMARY KEY (id)); " ++
        "CREATE TABLE b (id INT, PRIMARY KEY (id)); " ++
        "CREATE TABLE ab (a_id INT, b_id INT, PRIMARY KEY (a_id, b_id), " ++
        "FOREIGN KEY (a_id) REFERENCES a (id), FOREIGN KEY (b_id) REFERENCES b (id))")).relationships ∧
    (({ from_ := { table := "a", column := "id" }, to_ := { table := "b", column := "id" }
        type := RelType.MANY_TO_MANY, junctionTable := some "ab" } : Relationship).junctionTable ≠ none ↔
      ({ from_ := { table := "a", column := "id" }, to_ := { table := "b", column := "id" }
         type := RelType.MANY_TO_MANY, junctionTable := some "ab" } : Relationship).type =
        RelType.MANY_TO_MANY) :=
  ⟨by decide,
    claim_C9 ("CREATE TABLE a (id INT, PRIMARY KEY (id)); " ++
      "CREATE TABLE b (id INT, PRIMARY KEY (id)); " ++
      "CREATE TABLE ab (a_id INT, b_id INT, PRIMARY KEY (a_id, b_id), " ++
      "FOREIGN KEY (a_id) REFERENCES a (id), FOREIGN KEY (b_id) REFERENCES b (id))")
      _ (by decide)⟩

/-- Claim C10, confirmed: every table name, column name and relationship
endpoint in a returned schema is fully lower-case (holds no upper-case
ASCII letter), whatever the input's casing. -/
theorem claim_C10 (script : String) :
    (∀ t ∈ (parseSQLScript script).tables, noUpperStr t.name ∧
      ∀ c ∈ t.columns, noUpperStr c.name) ∧
    ∀ r ∈ (parseSQLScript script).relationships,
      noUpperStr r.from_.table ∧ noUpperStr r.from_.column ∧
        noUpperStr r.to_.table ∧ noUpperStr r.to_.column := by
  obtain ⟨ht, hf, _⟩ := lowerInv_parseSQLState script
  obtain ⟨convNew, hext, hrel, _, hP⟩ := analyze_decomp (parseSQLState script)
  constructor
  · intro t htm
    have htm2 : t ∈ ((analyzeRelationships (parseSQLState script)).tables.map
        (fun p => p.2)) := htm
    rw [hext.1] at htm2
    obtain ⟨p, hp, rfl⟩ := List.mem_map.mp htm2
    exact ⟨(ht p hp).2.1, (ht p hp).2.2⟩
  · intro r hrm
    have hr2 : r ∈ (analyzeRelationships (parseSQLState script)).relationships := hrm
    rw [hrel, relationships_parseSQLState] at hr2
    simp only [List.nil_append, List.mem_append] at hr2
    rcases hr2 with (hj | hd) | hc
    · exact lowerRel_junctionRelsList (fun p hp => (hf p hp).2) _ r hj
    · exact lowerRel_directRelsList hf r hd
    · exact lowerRel_convShape ht (hP r hc).2.2

/-- Witness for claim C10: upper-case input names come back lower-case. -/
theorem claim_C10_witness :
    ({ name := "users", columns := [⟨"id", "INT", true, true, none⟩] } : Table) ∈
      (parseSQLScript ("CREATE TABLE Users (Id INT, PRIMARY KEY (Id)); " ++
        "CREATE TABLE Posts (User_Id INT, FOREIGN KEY (User_Id) REFERENCES Users (Id))")).tables ∧
    (noUpperStr ({ name := "users", columns := [⟨"id", "INT", true, true, none⟩] } : Table).name ∧
      ∀ c ∈ ({ name := "users", columns := [⟨"id", "INT", true, true, none⟩] } : Table).columns,
        noUpperStr c.name) :=
  ⟨by decide,
    (claim_C10 ("CREATE TABLE Users (Id INT, PRIMARY KEY (Id)); " ++
      "CREATE TABLE Posts (User_Id INT, FOREIGN KEY (User_Id) REFERENCES Users (Id))")).1
      _ (by decide)⟩

end SQLP
